import Mathlib

/-!
Verification of the group-assignment engine of the humble-split-generator
repository, against its natural-language specification.

The two splitter variants are shallowly embedded:
  * `simple_splitter.py` (`SimpleCharacter`, `SimpleGroup`,
    `SimpleRaidSplitter.create_groups` and its phases), and
  * `raid_splitter.py` (`Character`, `RaidGroup`,
    `RaidSplitter.create_optimal_groups` and its phases).

Python mutable state is modelled by explicit state passing; the database
fetch is abstracted into a roster parameter (the engine boundary of the
spec); Python's `random.shuffle` and randomized sort keys are modelled by
an oracle supplying a character permutation and a group ordering, which
theorems quantify over; float arithmetic on the variance scores is
modelled over `ℚ` (all concrete instances evaluated here are exact dyadic
values, where binary floating point agrees with `ℚ`).
-/

namespace HumbleSplit

/-- Embeds `SimpleCharacter` of `simple_splitter.py` (a frozen dataclass;
equality is structural, as in Python). `locked_to_group` is `Option ℕ`
standing for Python's `int | None`. -/
structure SimpleCharacter where
  name : String
  player_id : String
  class_id : String
  class_name : String
  spec_id : String
  spec_name : String
  role_raid : String
  role_group : String
  armor_type : String := ""
  tier_token : String := ""
  raid_buff_ids : List String := []
  is_locked : Bool := false
  locked_to_group : Option Nat := none
deriving DecidableEq, Repr

/-- Embeds `SimpleGroup` of `simple_splitter.py`: `players_used` is a
Python `set`, modelled as a duplicate-free list (elements are only added
through `add_character`, which first checks absence). -/
structure SimpleGroup where
  group_id : Nat
  max_size : Nat := 30
  characters : List SimpleCharacter := []
  players_used : List String := []
deriving DecidableEq, Repr

/-- Embeds `SimpleGroup.can_add_character`: size limit, then player
conflict, then lock-to-a-different-group check, in source order. -/
def SimpleGroup.can_add_character (g : SimpleGroup) (c : SimpleCharacter) : Bool :=
  if g.characters.length ≥ g.max_size then false
  else if decide (c.player_id ∈ g.players_used) then false
  else if c.is_locked && decide (c.locked_to_group ≠ some g.group_id) then false
  else true

/-- Embeds `SimpleGroup.add_character`; returns the updated group and the
Python return value (`False` means no mutation). -/
def SimpleGroup.add_character (g : SimpleGroup) (c : SimpleCharacter) :
    SimpleGroup × Bool :=
  if g.can_add_character c then
    ({ g with characters := g.characters ++ [c],
              players_used := g.players_used ++ [c.player_id] }, true)
  else (g, false)

/-- The randomized choices of `simple_splitter.py`:
`random.shuffle(characters)` and
`sorted(groups, key=lambda g: (len(g.characters), random.random()))`.
`orderGroups` yields the visiting order as indices into the group list
(the Python code orders aliases of the group objects themselves).
Theorems quantify over oracles, restricted where needed by permutation
hypotheses; this covers every outcome of the randomization. -/
structure RandomOracle where
  shuffle : List SimpleCharacter → List SimpleCharacter
  orderGroups : List SimpleGroup → List Nat

/-- A concrete oracle (identity shuffle, groups in index order) used to
instantiate witnesses. -/
def idOracle : RandomOracle :=
  { shuffle := id, orderGroups := fun gs => List.range gs.length }

/-- The inner `while attempts < len(available_groups)` loop of
`_distribute_role_round_robin`: try the group at position `gi` of
`order`, advance cyclically, stop on success or after `k` attempts.
Returns the groups, the next `group_index` and the `assigned` flag.
(`order` is a permutation of the valid indices for every oracle the
source can produce; a stray out-of-range index is skipped.) -/
def rrLoop (c : SimpleCharacter) (order : List Nat) :
    Nat → Nat → List SimpleGroup → List SimpleGroup × Nat × Bool
  | 0, gi, gs => (gs, gi, false)
  | k + 1, gi, gs =>
    match gs.get? (order.getD gi 0) with
    | some g =>
      if (g.add_character c).2 then
        (gs.set (order.getD gi 0) (g.add_character c).1, (gi + 1) % order.length, true)
      else rrLoop c order k ((gi + 1) % order.length) gs
    | none => rrLoop c order k ((gi + 1) % order.length) gs

/-- The `for char in shuffled_characters` loop of
`_distribute_role_round_robin`: skip characters already in some group,
otherwise run the attempt loop, carrying `group_index` across
characters. -/
def rrChars (order : List Nat) :
    List SimpleCharacter → Nat → List SimpleGroup → List SimpleGroup × Nat
  | [], gi, gs => (gs, gi)
  | c :: cs, gi, gs =>
    if gs.any (fun g => decide (c ∈ g.characters)) then rrChars order cs gi gs
    else
      let r := rrLoop c order order.length gi gs
      rrChars order cs r.2.1 r.1

/-- Embeds `_distribute_role_round_robin` (the `role` argument is only
logged by the source). The group ordering is computed once per call. -/
def distributeRoleRoundRobin (o : RandomOracle) (gs : List SimpleGroup)
    (characters : List SimpleCharacter) : List SimpleGroup :=
  let shuffled := o.shuffle characters
  let order := o.orderGroups gs
  (rrChars order shuffled 0 gs).1

/-- The fixed role precedence `self.role_priority` of
`SimpleRaidSplitter`. -/
def rolePriority : List String := ["tank", "healer", "rdps", "mdps"]

/-- Embeds `_distribute_priority_group`: bucket the not-yet-assigned
characters by `role_raid`, then distribute the four known role buckets in
precedence order (characters with any other role string fall into no
consulted bucket, as in the source). -/
def distributePriorityGroup (o : RandomOracle) (gs : List SimpleGroup)
    (characters : List SimpleCharacter) : List SimpleGroup :=
  if characters.isEmpty then gs
  else
    let unassigned := characters.filter
      (fun c => !(gs.any (fun g => decide (c ∈ g.characters))))
    rolePriority.foldl
      (fun gs' role =>
        let bucket := unassigned.filter (fun c => c.role_raid == role)
        if bucket.isEmpty then gs' else distributeRoleRoundRobin o gs' bucket)
      gs

/-- Embeds `_organize_by_priority` restricted to one priority key:
`defaultdict` grouping preserves roster order, so the bucket for `p` is
the roster filtered to `role_group == p`. -/
def bucketOf (roster : List SimpleCharacter) (p : String) : List SimpleCharacter :=
  roster.filter (fun c => c.role_group == p)

/-- Embeds one step of `_apply_locked_assignments`' loop: the Python
guard `char.locked_to_group and 1 <= char.locked_to_group <= len(groups)`
(`None` and `0` are falsy) and the unconditional `add_character`
attempt. -/
def lockStep (gs : List SimpleGroup) (c : SimpleCharacter) : List SimpleGroup :=
  match c.locked_to_group with
  | some tg =>
    if 1 ≤ tg ∧ tg ≤ gs.length then
      match gs.get? (tg - 1) with
      | some g => gs.set (tg - 1) (g.add_character c).1
      | none => gs
    else gs
  | none => gs

/-- Embeds `_apply_locked_assignments`: fold the lock step over the
locked characters in roster order. -/
def applyLockedAssignments (gs : List SimpleGroup)
    (roster : List SimpleCharacter) : List SimpleGroup :=
  (roster.filter (fun c => c.is_locked)).foldl lockStep gs

/-- Embeds the character-lock request entries
(`{'characterName': ..., 'groupId': ...}`) consumed by
`create_groups`. -/
structure SimpleLock where
  characterName : String
  groupId : Nat
deriving DecidableEq, Repr

/-- Embeds the `locks_map` lookup of `create_groups`: a Python dict built
left to right, so a later lock for the same name overwrites an earlier
one. -/
def lockFor (locks : List SimpleLock) (name : String) : Option Nat :=
  (locks.reverse.find? (fun l => l.characterName == name)).map (·.groupId)

/-- Embeds the lock-flag application loop of `create_groups`
(`char.is_locked = True; char.locked_to_group = locks_map[char.name]`). -/
def applyLockFlags (roster : List SimpleCharacter) (locks : List SimpleLock) :
    List SimpleCharacter :=
  roster.map (fun c =>
    match lockFor locks c.name with
    | some g => { c with is_locked := true, locked_to_group := some g }
    | none => c)

/-- The fresh groups `SimpleGroup(group_id=i+1, max_size=group_size)`
built by `create_groups`. -/
def initSimpleGroups (num_groups group_size : Nat) : List SimpleGroup :=
  (List.range num_groups).map
    (fun i => { group_id := i + 1, max_size := group_size })

/-- Embeds `SimpleRaidSplitter.create_groups`, with the database fetch
abstracted into the `roster` argument (the engine boundary of the spec)
and the randomness into the oracle: lock flags, fresh groups, lock
application, then the four tier phases `main`, `alt`, `helper`,
`inactive`. -/
def createGroups (roster : List SimpleCharacter) (num_groups group_size : Nat)
    (locks : List SimpleLock) (o : RandomOracle) : List SimpleGroup :=
  let roster' := applyLockFlags roster locks
  let gs0 := initSimpleGroups num_groups group_size
  let gs1 := applyLockedAssignments gs0 roster'
  let gs2 := distributePriorityGroup o gs1 (bucketOf roster' "main")
  let gs3 := distributePriorityGroup o gs2 (bucketOf roster' "alt")
  let gs4 := distributePriorityGroup o gs3 (bucketOf roster' "helper")
  distributePriorityGroup o gs4 (bucketOf roster' "inactive")

/-! ## The advanced variant: `raid_splitter.py` -/

/-- Embeds `Character` of `raid_splitter.py` (no lock fields; structural
equality as for Python dataclasses). -/
structure Character where
  name : String
  player_id : String
  class_id : String
  class_name : String
  spec_id : String
  spec_name : String
  role_raid : String
  role_group : String
  armor_type : String
  tier_token : String
  raid_buff_ids : List String := []
deriving DecidableEq, Repr

/-- Embeds `RaidGroup` of `raid_splitter.py`: the member list, the
`players_used` set (duplicate-free list), and the three role-specific
member lists. Note the source gives `RaidGroup` no capacity field. -/
structure RaidGroup where
  group_id : Nat
  characters : List Character := []
  players_used : List String := []
  tanks : List Character := []
  healers : List Character := []
  dps : List Character := []
deriving DecidableEq, Repr

/-- Embeds `RaidGroup.can_add_character`: the source checks only
`character.player_id not in self.players_used`. -/
def RaidGroup.can_add_character (g : RaidGroup) (c : Character) : Bool :=
  !(decide (c.player_id ∈ g.players_used))

/-- Embeds `RaidGroup.add_character`: append to `characters`, record the
player, and append to the matching role list (`mdps`/`rdps` and anything
else go to `dps`). -/
def RaidGroup.add_character (g : RaidGroup) (c : Character) : RaidGroup × Bool :=
  if g.can_add_character c then
    let g' := { g with characters := g.characters ++ [c],
                       players_used := g.players_used ++ [c.player_id] }
    if c.role_raid = "tank" then ({ g' with tanks := g.tanks ++ [c] }, true)
    else if c.role_raid = "healer" then ({ g' with healers := g.healers ++ [c] }, true)
    else ({ g' with dps := g.dps ++ [c] }, true)
  else (g, false)

/-- Embeds `RaidGroup.remove_character`: `list.remove` drops the first
structurally-equal occurrence; `set.discard` drops the player id. -/
def RaidGroup.remove_character (g : RaidGroup) (c : Character) : RaidGroup × Bool :=
  if decide (c ∈ g.characters) then
    let g' := { g with characters := g.characters.erase c,
                       players_used := g.players_used.filter (fun p => p ≠ c.player_id) }
    if c.role_raid = "tank" then ({ g' with tanks := g.tanks.erase c }, true)
    else if c.role_raid = "healer" then ({ g' with healers := g.healers.erase c }, true)
    else ({ g' with dps := g.dps.erase c }, true)
  else (g, false)

/-- Python dicts keyed by category strings (`defaultdict(int)` converted
with `dict(...)`), modelled as insertion-ordered association lists. -/
abbrev Dist := List (String × Nat)

/-- `d.get(k, 0)`. -/
def dget (d : Dist) (k : String) : Nat := ((d.find? (fun kv => kv.1 == k)).map (·.2)).getD 0

/-- `d[k] = v`: overwrite the existing entry or append a new one. -/
def dset : Dist → String → Nat → Dist
  | [], k, v => [(k, v)]
  | kv :: rest, k, v => if kv.1 = k then (k, v) :: rest else kv :: dset rest k v

/-- `d[k] += 1` on a `defaultdict(int)`: first use inserts the key at the
end. -/
def dbump (d : Dist) (k : String) : Dist := dset d k (dget d k + 1)

/-- Embeds `RaidGroup.get_armor_distribution(mains_only)`. -/
def RaidGroup.get_armor_distribution (g : RaidGroup) (mains_only : Bool) : Dist :=
  let cs := if mains_only then g.characters.filter (fun c => c.role_group == "main")
            else g.characters
  cs.foldl (fun d c => dbump d c.armor_type) []

/-- Embeds `RaidGroup.get_tier_distribution(mains_only)`. -/
def RaidGroup.get_tier_distribution (g : RaidGroup) (mains_only : Bool) : Dist :=
  let cs := if mains_only then g.characters.filter (fun c => c.role_group == "main")
            else g.characters
  cs.foldl (fun d c => dbump d c.tier_token) []

/-- Embeds `RaidGroup.get_buffs_provided` (a set union; only membership
in it is ever consumed, so the concatenation of the members' buff lists
is an adequate model). -/
def RaidGroup.get_buffs_provided (g : RaidGroup) : List String :=
  g.characters.foldl (fun acc c => acc ++ c.raid_buff_ids) []

/-- Embeds `RaidGroup.get_priority_score` (an integer-valued float). -/
def RaidGroup.get_priority_score (g : RaidGroup) : Nat :=
  (g.characters.countP (fun c => c.role_group == "main")) * 3 +
  (g.characters.countP (fun c => c.role_group == "alt")) * 2 +
  (g.characters.countP (fun c => c.role_group == "helper")) * 1

/-- `self.required_buffs` of `RaidSplitter`. -/
def requiredBuffs : List String :=
  ["arcane_intellect", "battle_shout", "mark_of_the_wild",
   "power_word_fortitude", "mystic_touch", "chaos_brand",
   "hunters_mark", "atrophic_poison", "skyfury"]

/-- The priority key `{'main': 3, 'alt': 2, 'helper': 1}.get(role, 0)`
used by the sorts of `raid_splitter.py`. -/
def prioOf (c : Character) : Nat :=
  if c.role_group = "main" then 3
  else if c.role_group = "alt" then 2
  else if c.role_group = "helper" then 1
  else 0

/-- Insert into a descending-priority-sorted list, after all entries of
equal or higher priority: combined with `sortByPriorityDesc` this gives
exactly the stable descending sort of Python's
`list.sort(key=..., reverse=True)`. -/
def insertPrioDesc (c : Character) : List Character → List Character
  | [] => [c]
  | d :: ds => if prioOf d > prioOf c then d :: insertPrioDesc c ds
               else c :: d :: ds

/-- Stable sort by descending priority tier (`main` > `alt` > `helper` >
others), matching `sort(key=priority_order.get(...), reverse=True)`. -/
def sortByPriorityDesc : List Character → List Character
  | [] => []
  | c :: cs => insertPrioDesc c (sortByPriorityDesc cs)

/-- The descending-priority relation realized by `sortByPriorityDesc`
(used to state its sortedness). -/
def prioGE (a b : Character) : Prop := prioOf b ≤ prioOf a

instance : DecidableRel prioGE := fun a b => Nat.decLe _ _

instance : IsTotal Character prioGE := ⟨fun a b => Nat.le_total (prioOf b) (prioOf a)⟩

instance : IsTrans Character prioGE :=
  ⟨fun _ _ _ h1 h2 => Nat.le_trans h2 h1⟩

instance : IsRefl Character prioGE := ⟨fun _ => Nat.le_refl _⟩

/-- Embeds `categorize_characters`: `tank` and `healer` keep their
buckets; everything else — `mdps`, `rdps`, `dps` and unrecognized role
strings — lands in the dps bucket. Order is preserved. -/
def categorize (chars : List Character) :
    List Character × List Character × List Character :=
  (chars.filter (fun c => c.role_raid == "tank"),
   chars.filter (fun c => c.role_raid == "healer"),
   chars.filter (fun c => c.role_raid != "tank" && c.role_raid != "healer"))

/-- The enumerated round-robin loop of `distribute_tanks`
(`group_index = i % len(groups)`), threading the groups and the
`used_tanks` accumulator. (`len(groups) = 0` would raise in Python; the
model skips, and no theorem relies on that case.) -/
def tankLoop (n : Nat) : List Character → Nat → List RaidGroup →
    List Character → List RaidGroup × List Character
  | [], _, gs, used => (gs, used)
  | t :: ts, i, gs, used =>
    match gs.get? (i % n) with
    | some g =>
      tankLoop n ts (i + 1) (gs.set (i % n) (g.add_character t).1)
        (if (g.add_character t).2 then used ++ [t] else used)
    | none => tankLoop n ts (i + 1) gs used

/-- Embeds `distribute_tanks`: stable descending-priority sort, then
round-robin assignment; returns the groups and `used_tanks`. -/
def distributeTanks (gs : List RaidGroup) (tanks : List Character) :
    List RaidGroup × List Character :=
  tankLoop gs.length (sortByPriorityDesc tanks) 0 gs []

/-- The inner `for _ in range(target)` loop of `distribute_healers`'
shortage branch: on a failed add the healer index does not advance and
the same healer is retried, exactly as in the source. -/
def healerBlock (chars : List Character) : Nat → Nat → RaidGroup →
    List Character → RaidGroup × Nat × List Character
  | 0, hi, g, used => (g, hi, used)
  | k + 1, hi, g, used =>
    match chars.get? hi with
    | some h =>
      if (g.add_character h).2 then
        healerBlock chars k (hi + 1) (g.add_character h).1 (used ++ [h])
      else healerBlock chars k hi (g.add_character h).1 used
    | none => (g, hi, used)

/-- The per-group fold of `distribute_healers`' shortage branch: group
at position `idx` gets `base + (1 if idx < extra else 0)` healers. -/
def healerShortFold (chars : List Character) (base extra : Nat) :
    List RaidGroup → Nat → Nat → List Character →
    List RaidGroup × List Character
  | [], _, _, used => ([], used)
  | g :: gs, idx, hi, used =>
    let target := base + (if idx < extra then 1 else 0)
    let r := healerBlock chars target hi g used
    let rest := healerShortFold chars base extra gs (idx + 1) r.2.1 r.2.2
    (r.1 :: rest.1, rest.2)

/-- The enumerated loop of `distribute_healers`' enough-healers branch:
healer `i` goes to the group block `i // healers_per_group`. -/
def healerEnoughLoop (hpg : Nat) : List Character → Nat → List RaidGroup →
    List Character → List RaidGroup × List Character
  | [], _, gs, used => (gs, used)
  | h :: hs, i, gs, used =>
    if i / hpg < gs.length then
      match gs.get? (i / hpg) with
      | some g =>
        healerEnoughLoop hpg hs (i + 1) (gs.set (i / hpg) (g.add_character h).1)
          (if (g.add_character h).2 then used ++ [h] else used)
      | none => healerEnoughLoop hpg hs (i + 1) gs used
    else healerEnoughLoop hpg hs (i + 1) gs used

/-- Embeds `distribute_healers`: stable descending-priority sort, then
either the even-split shortage branch or the contiguous-block
enough-healers branch (`group_index = i // healers_per_group`). A zero
`healers_per_group` or zero groups would raise `ZeroDivisionError` in
Python; theorems about this function assume both positive. -/
def distributeHealers (gs : List RaidGroup) (healers : List Character)
    (hpg : Nat) : List RaidGroup × List Character :=
  let sorted := sortByPriorityDesc healers
  let needed := gs.length * hpg
  if sorted.length < needed then
    let base := sorted.length / gs.length
    let extra := sorted.length % gs.length
    healerShortFold sorted base extra gs 0 0 []
  else
    healerEnoughLoop hpg (sorted.take needed) 0 gs []

/-- The `for buff in missing_buffs` loop of `ensure_buff_coverage` for
one group: breaks at capacity, otherwise takes the first unused,
buff-providing, addable character from the remaining pool. Python
iterates the `set` difference; the model fixes the iteration order to
the `required_buffs` order (no claim depends on the set order). -/
def buffLoop (remaining : List Character) (group_size : Nat) :
    List String → RaidGroup → List Character → RaidGroup × List Character
  | [], g, used => (g, used)
  | buff :: more, g, used =>
    if g.characters.length ≥ group_size then (g, used)
    else
      match remaining.find? (fun c =>
          !(decide (c ∈ used)) && decide (buff ∈ c.raid_buff_ids)
          && g.can_add_character c) with
      | some provider =>
        let (g', ok) := g.add_character provider
        buffLoop remaining group_size more g' (if ok then used ++ [provider] else used)
      | none => buffLoop remaining group_size more g used

/-- The `for group in groups` fold of `ensure_buff_coverage`: skip full
groups, otherwise compute the missing required buffs once and run the
provider loop; the `used_chars` accumulator is threaded across groups. -/
def buffFold (remaining : List Character) (group_size : Nat) :
    List RaidGroup → List Character → List RaidGroup × List Character
  | [], used => ([], used)
  | g :: rest, used =>
    let r :=
      if g.characters.length ≥ group_size then (g, used)
      else
        let missing := requiredBuffs.filter
          (fun b => !(decide (b ∈ g.get_buffs_provided)))
        buffLoop remaining group_size missing g used
    let tail := buffFold remaining group_size rest r.2
    (r.1 :: tail.1, tail.2)

/-- Embeds `ensure_buff_coverage`; returns the groups and `used_chars`. -/
def ensureBuffCoverage (gs : List RaidGroup) (remaining : List Character)
    (group_size : Nat) : List RaidGroup × List Character :=
  buffFold remaining group_size gs []

/-- The `for char in candidates` loop of `fill_remaining_slots` for one
group: `slots_needed` is fixed before the loop, `add_character` re-checks
the player conflict, the counter advances only on success. -/
def fillAddLoop : List Character → Nat → RaidGroup → List Character → Nat →
    RaidGroup × List Character
  | [], _, g, used, _ => (g, used)
  | c :: cs, slots, g, used, added =>
    if added ≥ slots then (g, used)
    else
      let (g', ok) := g.add_character c
      fillAddLoop cs slots g' (if ok then used ++ [c] else used)
        (if ok then added + 1 else added)

/-- The per-group fold of `fill_remaining_slots`: skip groups at or above
`target_size`, otherwise filter the candidate list from the globally
sorted `available_chars` (re-evaluated against the current group and the
shared `used_chars`) and add up to the missing count. -/
def fillFold (sortedAvail : List Character) (target_size : Nat) :
    List RaidGroup → List Character → List RaidGroup × List Character
  | [], used => ([], used)
  | g :: rest, used =>
    let r :=
      if g.characters.length ≥ target_size then (g, used)
      else
        let slots := target_size - g.characters.length
        let candidates := sortedAvail.filter
          (fun c => !(decide (c ∈ used)) && g.can_add_character c)
        fillAddLoop candidates slots g used 0
    let tail := fillFold sortedAvail target_size rest r.2
    (r.1 :: tail.1, tail.2)

/-- Embeds `fill_remaining_slots`: drop characters already in some
group, stable-sort the rest by descending priority, then fill each group
towards `target_size`; returns the groups and `used_chars`. -/
def fillRemainingSlots (gs : List RaidGroup) (remaining : List Character)
    (target_size : Nat) : List RaidGroup × List Character :=
  let available := remaining.filter
    (fun c => !(gs.any (fun g => decide (c ∈ g.characters))))
  fillFold (sortByPriorityDesc available) target_size gs []

/-- Embeds `_calculate_variance` over `ℚ` (the source uses floats; every
value compared in this development is an exact dyadic rational, where
binary floating point and `ℚ` agree): zero total gives `0`; otherwise the
squared deviations of the *present* dictionary values from `total / 4`,
summed and divided by `total`. -/
def calculateVariance (d : Dist) : ℚ :=
  let total : Nat := (d.map (·.2)).sum
  if total = 0 then 0
  else
    ((d.map (fun kv => ((kv.2 : ℚ) - (total : ℚ) / 4) ^ 2)).sum) / (total : ℚ)

/-- An unreduced fraction (numerator, denominator); denominators are
positive by construction everywhere below. `ℚ` arithmetic does not
reduce inside Lean's kernel, so the optimizer's score comparisons are
computed on unreduced fractions and proved equal to the `ℚ`-valued
`calculateVariance` (see `varianceFrac_val`). -/
abbrev Frac := Int × Int

/-- The rational value of an unreduced fraction. -/
def fracVal (f : Frac) : ℚ := (f.1 : ℚ) / (f.2 : ℚ)

/-- Fraction addition without normalization. -/
def fadd (a b : Frac) : Frac := (a.1 * b.2 + b.1 * a.2, a.2 * b.2)

/-- Strict comparison of fractions with positive denominators, by
cross-multiplication. -/
def fltb (a b : Frac) : Bool := decide (a.1 * b.2 < b.1 * a.2)

/-- `_calculate_variance` as an unreduced fraction:
`sum((count - total/4)**2) / total = Σ (4·count − total)² / (16·total)`
(see `varianceFrac_val` for the proof that this is exactly
`calculateVariance`). -/
def varianceFrac (d : Dist) : Frac :=
  let total : Nat := (d.map (·.2)).sum
  if total = 0 then (0, 1)
  else ((d.map (fun kv => (4 * (kv.2 : Int) - (total : Int)) ^ 2)).sum,
        16 * (total : Int))

/-- The distribution update pair simulated by
`_would_improve_distribution_mains_only` for one group losing `kOut` and
gaining `kIn`: `d[kOut] = max(0, d.get(kOut, 0) - 1)` then
`d[kIn] = d.get(kIn, 0) + 1` (the first assignment can insert an explicit
zero entry, exactly as in Python). -/
def simSwapDist (d : Dist) (kOut kIn : String) : Dist :=
  let d1 := dset d kOut (dget d kOut - 1)
  dset d1 kIn (dget d1 kIn + 1)

/-- Embeds `_would_improve_distribution_mains_only`: mains-only armor and
tier distributions of both groups before, the simulated distributions
after, and the strict comparison of the two total scores. (The source's
early `return False` for non-main characters is placed after the
before-score computation, exactly as in the code; it has no observable
effect on the result.) -/
def wouldImproveDistributionMainsOnly (g1 g2 : RaidGroup)
    (c1 c2 : Character) : Bool :=
  let armor1b := g1.get_armor_distribution true
  let armor2b := g2.get_armor_distribution true
  let tier1b := g1.get_tier_distribution true
  let tier2b := g2.get_tier_distribution true
  let before := fadd (fadd (fadd (varianceFrac armor1b) (varianceFrac armor2b))
    (varianceFrac tier1b)) (varianceFrac tier2b)
  if c1.role_group ≠ "main" ∨ c2.role_group ≠ "main" then false
  else
    let armor1a := simSwapDist armor1b c1.armor_type c2.armor_type
    let armor2a := simSwapDist armor2b c2.armor_type c1.armor_type
    let tier1a := simSwapDist tier1b c1.tier_token c2.tier_token
    let tier2a := simSwapDist tier2b c2.tier_token c1.tier_token
    let after := fadd (fadd (fadd (varianceFrac armor1a) (varianceFrac armor2a))
      (varianceFrac tier1a)) (varianceFrac tier2a)
    fltb after before

/-- The inner `for char2 in mains2` loop of
`_try_armor_and_tier_swap_mains_only`. On an eligible, improving pair:
remove both, add `char2` to group 1, and — only if that succeeded — add
`char1` to group 2 (Python's short-circuit `and`); if the pair of adds
did not both succeed, run the source's revert (`add_character` of each
original character, results ignored) and fall through to the next
`char2`. -/
def swapInner (c1 : Character) : List Character → RaidGroup → RaidGroup →
    RaidGroup × RaidGroup × Bool
  | [], g1, g2 => (g1, g2, false)
  | c2 :: rest, g1, g2 =>
    if c1.role_raid = c2.role_raid ∧
        (c1.armor_type ≠ c2.armor_type ∨ c1.tier_token ≠ c2.tier_token) then
      if wouldImproveDistributionMainsOnly g1 g2 c1 c2 then
        let g1a := (g1.remove_character c1).1
        let g2a := (g2.remove_character c2).1
        let (g1b, ok1) := g1a.add_character c2
        let (g2b, ok2) := if ok1 then g2a.add_character c1 else (g2a, false)
        if ok1 && ok2 then (g1b, g2b, true)
        else
          let g1c := (g1b.add_character c1).1
          let g2c := (g2b.add_character c2).1
          swapInner c1 rest g1c g2c
      else swapInner c1 rest g1 g2
    else swapInner c1 rest g1 g2

/-- The outer `for char1 in mains1` loop of
`_try_armor_and_tier_swap_mains_only`; the mains lists are computed once
from the groups as passed in and are not refreshed. -/
def swapOuter (mains2 : List Character) : List Character → RaidGroup →
    RaidGroup → RaidGroup × RaidGroup × Bool
  | [], g1, g2 => (g1, g2, false)
  | c1 :: rest, g1, g2 =>
    let r := swapInner c1 mains2 g1 g2
    if r.2.2 then r else swapOuter mains2 rest r.1 r.2.1

/-- Embeds `_try_armor_and_tier_swap_mains_only`; returns both groups and
whether a swap was performed. -/
def tryArmorAndTierSwapMainsOnly (g1 g2 : RaidGroup) :
    RaidGroup × RaidGroup × Bool :=
  let mains1 := g1.characters.filter (fun c => c.role_group == "main")
  let mains2 := g2.characters.filter (fun c => c.role_group == "main")
  swapOuter mains2 mains1 g1 g2

/-- The unordered group-pair index list
`for i, group1 in enumerate(groups): for j, group2 in
enumerate(groups[i+1:], i+1)`. -/
def pairIndices (n : Nat) : List (Nat × Nat) :=
  (List.range n).foldr
    (fun i acc => (((List.range n).drop (i + 1)).map (fun j => (i, j))) ++ acc) []

/-- One pass of `optimize_armor_and_tier_distribution` over every group
pair, accumulating the `improved` flag. -/
def optimizePairs : List (Nat × Nat) → List RaidGroup → Bool →
    List RaidGroup × Bool
  | [], gs, imp => (gs, imp)
  | (i, j) :: ps, gs, imp =>
    match gs.get? i, gs.get? j with
    | some g1, some g2 =>
      let r := tryArmorAndTierSwapMainsOnly g1 g2
      optimizePairs ps ((gs.set i r.1).set j r.2.1) (imp || r.2.2)
    | _, _ => optimizePairs ps gs imp

/-- The bounded iteration of `optimize_armor_and_tier_distribution`:
at most 10 passes, stopping after the first pass with no improving
swap. -/
def optimizeLoop : Nat → List RaidGroup → List RaidGroup
  | 0, gs => gs
  | k + 1, gs =>
    let r := optimizePairs (pairIndices gs.length) gs false
    if r.2 then optimizeLoop k r.1 else r.1

/-- Embeds `optimize_armor_and_tier_distribution` (hard cap of 10
iterations). -/
def optimizeArmorAndTierDistribution (gs : List RaidGroup) : List RaidGroup :=
  optimizeLoop 10 gs

/-- Embeds `create_optimal_groups`, with the database fetch abstracted
into the roster argument: empty roster raises
`ValueError("No characters found in database")`, otherwise categorize,
seed tanks and healers, backfill buffs, fill remaining slots, and run the
balance optimizer. -/
def createOptimalGroups (roster : List Character)
    (num_groups group_size healers_per_group : Nat) :
    Except String (List RaidGroup) :=
  if roster.isEmpty then .error "No characters found in database"
  else
    let cat := categorize roster
    let gs0 := (List.range num_groups).map (fun i => ({ group_id := i + 1 } : RaidGroup))
    let r1 := distributeTanks gs0 cat.1
    let r2 := distributeHealers r1.1 cat.2.1 healers_per_group
    let remaining := roster.filter
      (fun c => !(decide (c ∈ r1.2)) && !(decide (c ∈ r2.2)))
    let r3 := ensureBuffCoverage r2.1 remaining group_size
    let remaining2 := remaining.filter (fun c => !(decide (c ∈ r3.2)))
    let r4 := fillRemainingSlots r3.1 remaining2 group_size
    .ok (optimizeArmorAndTierDistribution r4.1)

/-! ## The serializers (`groups_to_dict` of both variants) -/

/-- Embeds `SimpleGroup.get_role_counts` (a `defaultdict` tally,
insertion-ordered). -/
def SimpleGroup.get_role_counts (g : SimpleGroup) : Dist :=
  g.characters.foldl (fun d c => dbump d c.role_raid) []

/-- Embeds `SimpleGroup.get_priority_counts`. -/
def SimpleGroup.get_priority_counts (g : SimpleGroup) : Dist :=
  g.characters.foldl (fun d c => dbump d c.role_group) []

/-- Embeds `SimpleGroup.get_armor_distribution(mains_only)`: empty-string
armor types are not counted. -/
def SimpleGroup.get_armor_distribution (g : SimpleGroup) (mains_only : Bool) : Dist :=
  let cs := if mains_only then g.characters.filter (fun c => c.role_group == "main")
            else g.characters
  cs.foldl (fun d c => if c.armor_type ≠ "" then dbump d c.armor_type else d) []

/-- Embeds `SimpleGroup.get_tier_distribution(mains_only)`: empty-string
tier tokens are not counted. -/
def SimpleGroup.get_tier_distribution (g : SimpleGroup) (mains_only : Bool) : Dist :=
  let cs := if mains_only then g.characters.filter (fun c => c.role_group == "main")
            else g.characters
  cs.foldl (fun d c => if c.tier_token ≠ "" then dbump d c.tier_token else d) []

/-- Embeds `SimpleRaidSplitter._calculate_priority_score`. -/
def simplePriorityScore (g : SimpleGroup) : Nat :=
  (dget g.get_priority_counts "main") * 3 + (dget g.get_priority_counts "alt") * 2
  + (dget g.get_priority_counts "helper") * 1

/-- The per-character dictionary that `SimpleRaidSplitter.groups_to_dict`
emits for each member. -/
structure SimpleCharDict where
  name : String
  class_name : String
  spec_name : String
  role_raid : String
  role_group : String
  armor_type : String
  tier_token : String
  buffs : List String
  is_locked : Bool
deriving DecidableEq, Repr

/-- The serialized member entry of the simple variant. -/
def serializeSimpleChar (c : SimpleCharacter) : SimpleCharDict :=
  { name := c.name, class_name := c.class_name, spec_name := c.spec_name,
    role_raid := c.role_raid, role_group := c.role_group,
    armor_type := c.armor_type, tier_token := c.tier_token,
    buffs := c.raid_buff_ids, is_locked := c.is_locked }

/-- The per-group dictionary that `SimpleRaidSplitter.groups_to_dict`
emits. -/
structure SimpleGroupDict where
  group_id : Nat
  total_members : Nat
  tanks : Nat
  healers : Nat
  dps : Nat
  mains_count : Nat
  priority_score : Nat
  variable_1 : Nat
  variable_2 : Nat
  armor_distribution_mains : Dist
  tier_distribution_mains : Dist
  armor_distribution : Dist
  tier_distribution : Dist
  characters : List SimpleCharDict
deriving DecidableEq, Repr

/-- Embeds `SimpleRaidSplitter.groups_to_dict`. -/
def simpleGroupsToDict (gs : List SimpleGroup) : List SimpleGroupDict :=
  gs.map (fun g =>
    { group_id := g.group_id,
      total_members := g.characters.length,
      tanks := dget g.get_role_counts "tank",
      healers := dget g.get_role_counts "healer",
      dps := dget g.get_role_counts "mdps" + dget g.get_role_counts "rdps",
      mains_count := dget g.get_priority_counts "main",
      priority_score := simplePriorityScore g,
      variable_1 := dget g.get_priority_counts "main",
      variable_2 := g.characters.length,
      armor_distribution_mains := g.get_armor_distribution true,
      tier_distribution_mains := g.get_tier_distribution true,
      armor_distribution := g.get_armor_distribution false,
      tier_distribution := g.get_tier_distribution false,
      characters := g.characters.map serializeSimpleChar })

/-- The per-character dictionary that `RaidSplitter.groups_to_dict`
emits (no lock field in the advanced variant). -/
structure RaidCharDict where
  name : String
  class_name : String
  spec_name : String
  role_raid : String
  role_group : String
  armor_type : String
  tier_token : String
  buffs : List String
deriving DecidableEq, Repr

/-- The serialized member entry of the advanced variant. -/
def serializeRaidChar (c : Character) : RaidCharDict :=
  { name := c.name, class_name := c.class_name, spec_name := c.spec_name,
    role_raid := c.role_raid, role_group := c.role_group,
    armor_type := c.armor_type, tier_token := c.tier_token,
    buffs := c.raid_buff_ids }

/-- The per-group dictionary that `RaidSplitter.groups_to_dict` emits. -/
structure RaidGroupDict where
  group_id : Nat
  total_members : Nat
  mains_count : Nat
  tanks : Nat
  healers : Nat
  dps : Nat
  variable_1 : Nat
  variable_2 : Nat
  characters : List RaidCharDict
  armor_distribution : Dist
  armor_distribution_mains : Dist
  tier_distribution : Dist
  tier_distribution_mains : Dist
  buffs_provided : List String
  priority_score : Nat
deriving DecidableEq, Repr

/-- Embeds `RaidSplitter.groups_to_dict`. -/
def raidGroupsToDict (gs : List RaidGroup) : List RaidGroupDict :=
  gs.map (fun g =>
    let mains_armor := g.get_armor_distribution true
    let mains_count := (g.characters.filter (fun c => c.role_group == "main")).length
    { group_id := g.group_id,
      total_members := g.characters.length,
      mains_count := mains_count,
      tanks := g.tanks.length,
      healers := g.healers.length,
      dps := g.dps.length,
      variable_1 := mains_count,
      variable_2 := (mains_armor.map (·.2)).sum,
      characters := g.characters.map serializeRaidChar,
      armor_distribution := g.get_armor_distribution false,
      armor_distribution_mains := mains_armor,
      tier_distribution := g.get_tier_distribution false,
      tier_distribution_mains := g.get_tier_distribution true,
      buffs_provided := g.get_buffs_provided,
      priority_score := g.get_priority_score })

/-- The set of input characters left out of every group of the simple
variant's result — the "unassigned" notion of the spec's conservation
and reporting properties. -/
def unassignedSimple (roster : List SimpleCharacter) (gs : List SimpleGroup) :
    List SimpleCharacter :=
  roster.filter (fun c => !(gs.any (fun g => decide (c ∈ g.characters))))

/-! ## Spec-side definitions

These two definitions follow the words of the specification (not the
source); they exist only to be compared against the embedded code. -/

/-- `self.armor_types` of `RaidSplitter` — the 4 fixed equipment
categories. -/
def armorTypes : List String := ["cloth", "leather", "mail", "plate"]

/-- `self.tier_tokens` of `RaidSplitter` — the 4 fixed reward-token
categories. -/
def tierTokens : List String := ["Mystic", "Venerated", "Zenith", "Dreadful"]

/-- The score the specification claims for one group and one dimension:
"the sum over the 4 fixed ... categories of the squared deviation of the
mains-only count from a perfectly even 25%-per-category split
(total/4)" — written from the spec's words, to be compared with the
`_calculate_variance` of the source. -/
def specClaimedScore (keys : List String) (d : Dist) : ℚ :=
  let total : Nat := (d.map (·.2)).sum
  (keys.map (fun k => ((dget d k : Nat) - (total : ℚ) / 4) ^ 2)).sum

/-- The rejection condition the specification claims for `canAdd`,
instantiated for the advanced variant (whose characters carry no lock
fields, so only the first two disjuncts can apply): "false exactly when
the group is at capacity [w.r.t. the computation's `groupSize`] or the
character's owning player is already present". Written from the spec's
words, to be compared with `RaidGroup.can_add_character`. -/
def specCanAddRejects (groupSize : Nat) (g : RaidGroup) (c : Character) : Prop :=
  groupSize ≤ g.characters.length ∨ c.player_id ∈ g.players_used

/-! ## Concrete fixtures used by counterexamples and witnesses -/

/-- Fixture builder for advanced-variant characters. -/
def mkChar (n p rr rg ar tt : String) (bs : List String := []) : Character :=
  { name := n, player_id := p, class_id := "c", class_name := "C", spec_id := "s",
    spec_name := "S", role_raid := rr, role_group := rg, armor_type := ar,
    tier_token := tt, raid_buff_ids := bs }

/-- Fixture builder for simple-variant characters. -/
def mkSChar (n p rr rg : String) : SimpleCharacter :=
  { name := n, player_id := p, class_id := "c", class_name := "C", spec_id := "s",
    spec_name := "S", role_raid := rr, role_group := rg }

/-- C1 fixture: main tank of player `p1`, plate armor. -/
def chA1 : Character := mkChar "A1" "p1" "tank" "main" "plate" "Dreadful"

/-- C1 fixture: main dps of player `p3`, plate armor. -/
def chA2 : Character := mkChar "A2" "p3" "mdps" "main" "plate" "Dreadful"

/-- C1 fixture: main tank of player `p2`, cloth armor. -/
def chB1 : Character := mkChar "B1" "p2" "tank" "main" "cloth" "Dreadful"

/-- C1 fixture: main dps of player `p4`, cloth armor. -/
def chB2 : Character := mkChar "B2" "p4" "mdps" "main" "cloth" "Dreadful"

/-- C1 fixture: an alt of player `p1` sitting in group 2, so that the
swap's second `add_character` (moving `chA1` into group 2) fails on the
player conflict. -/
def chX : Character := mkChar "X" "p1" "mdps" "alt" "leather" "Dreadful"

/-- C1 fixture: group 1 holding `chA1` and `chA2`, built through
`add_character`. -/
def cxG1 : RaidGroup :=
  ((({ group_id := 1 } : RaidGroup).add_character chA1).1.add_character chA2).1

/-- C1 fixture: group 2 holding `chB1`, `chB2` and `chX` (the colliding
alt of player `p1`). -/
def cxG2 : RaidGroup :=
  ((((({ group_id := 2 } : RaidGroup).add_character chB1).1).add_character
    chB2).1.add_character chX).1

/-- C2/C6 fixtures: two tanks of distinct players, a `main` and a
`helper`. -/
def chTankMain : Character := mkChar "Tm" "q1" "tank" "main" "plate" "Dreadful"

/-- See `chTankMain`. -/
def chTankHelper : Character := mkChar "Th" "q2" "tank" "helper" "cloth" "Mystic"

/-- A second helper-tier tank pair for the C6 counterexample (distinct
from the C2 fixture characters). -/
def chTankMainB : Character := mkChar "Um" "r1" "tank" "main" "mail" "Zenith"

/-- See `chTankMainB`. -/
def chTankHelperB : Character := mkChar "Uh" "r2" "tank" "helper" "leather" "Venerated"

/-- C10 fixture: a seed member providing all required buffs except
`mystic_touch` and `chaos_brand`. -/
def chM0 : Character := mkChar "M" "m0" "mdps" "main" "plate" "Dreadful"
  ["arcane_intellect", "battle_shout", "mark_of_the_wild",
   "power_word_fortitude", "hunters_mark", "atrophic_poison", "skyfury"]

/-- C10 fixture: first provider of both missing buffs. -/
def chPX : Character := mkChar "PX" "px" "mdps" "main" "cloth" "Mystic"
  ["mystic_touch", "chaos_brand"]

/-- C10 fixture: second provider of the same two buffs. -/
def chPY : Character := mkChar "PY" "py" "mdps" "main" "leather" "Venerated"
  ["mystic_touch", "chaos_brand"]

/-- C10 fixture: the group seeded with `chM0`. -/
def cxGBuff : RaidGroup := (({ group_id := 1 } : RaidGroup).add_character chM0).1

/-- C8 fixture healers: four main healers of distinct players. -/
def chH1 : Character := mkChar "H1" "h1" "healer" "main" "cloth" "Mystic"

/-- See `chH1`. -/
def chH2 : Character := mkChar "H2" "h2" "healer" "main" "cloth" "Mystic"

/-- See `chH1`. -/
def chH3 : Character := mkChar "H3" "h3" "healer" "main" "cloth" "Mystic"

/-- See `chH1`. -/
def chH4 : Character := mkChar "H4" "h4" "healer" "main" "cloth" "Mystic"

/-- C3 fixtures: two main tanks of distinct players for the simple
variant. -/
def chSA : SimpleCharacter := mkSChar "SA" "sp1" "tank" "main"

/-- See `chSA`. -/
def chSB : SimpleCharacter := mkSChar "SB" "sp2" "tank" "main"

/-- C5 witness fixture: a character locked to group 1. -/
def chSC : SimpleCharacter :=
  { mkSChar "SC" "sp3" "tank" "main" with is_locked := true, locked_to_group := some 1 }

/-- C4 fixtures: two tanks of distinct players for the `canAdd`
counterexample. -/
def chD1 : Character := mkChar "D1" "d1" "tank" "main" "plate" "Dreadful"

/-- See `chD1`. -/
def chD2 : Character := mkChar "D2" "d2" "tank" "main" "cloth" "Mystic"

/-- C4 fixture: a group already holding one character — at capacity for
`groupSize = 1`. -/
def cxGFull : RaidGroup := (({ group_id := 1 } : RaidGroup).add_character chD1).1

/-- C6 witness fixture: a single empty simple group of capacity 1. -/
def cxOneSlot : SimpleGroup := { group_id := 1, max_size := 1 }

/-- C6 witness fixture: a main tank for the one free slot. -/
def chSM : SimpleCharacter := mkSChar "SM" "sm1" "tank" "main"

/-- C6 witness fixture: a helper tank left over. -/
def chSH : SimpleCharacter := mkSChar "SH" "sh1" "tank" "helper"

/-- C8 fixture: first of two empty raid groups. -/
def cxHG1 : RaidGroup := { group_id := 1 }

/-- C8 fixture: second of two empty raid groups. -/
def cxHG2 : RaidGroup := { group_id := 2 }

/-! ## Invariant predicates and reasoning forms used by the theorems -/

/-- The unrolled form of `rrLoop` when the attempt budget equals the
length of the ordering and the loop starts at position 0: the indices
are tried in list order, stopping at the first successful add. Used only
for reasoning; `rrLoop_eq_rrList` proves the correspondence. -/
def rrList (c : SimpleCharacter) : List Nat → List SimpleGroup →
    List SimpleGroup × Bool
  | [], gs => (gs, false)
  | i :: is, gs =>
    match gs.get? i with
    | some g =>
      if (g.add_character c).2 then (gs.set i (g.add_character c).1, true)
      else rrList c is gs
    | none => rrList c is gs

/-- All groups are within their capacity, and every capacity equals the
computation's `group_size`. -/
def CapBounded (s : Nat) (gs : List SimpleGroup) : Prop :=
  ∀ g ∈ gs, g.characters.length ≤ g.max_size ∧ g.max_size = s

/-- `gs'` is `gs` after steps that only ever append members: same group
count, and positionwise the id and capacity are unchanged while the
member list only grows. Every phase of the simple pipeline, for every
oracle, takes each state to one it grows into. -/
def GrowsInto (gs gs' : List SimpleGroup) : Prop :=
  gs'.length = gs.length ∧
  ∀ i g, gs.get? i = some g → ∃ g', gs'.get? i = some g' ∧
    g'.group_id = g.group_id ∧ g'.max_size = g.max_size ∧
    ∀ c ∈ g.characters, c ∈ g'.characters

/-! ## Theorems -/

/-- `add_character` never changes the capacity field. -/
theorem add_character_max_size (g : SimpleGroup) (c : SimpleCharacter) :
    (g.add_character c).1.max_size = g.max_size := by
  unfold SimpleGroup.add_character
  split_ifs <;> rfl

/-- `add_character` never changes the group id. -/
theorem add_character_group_id (g : SimpleGroup) (c : SimpleCharacter) :
    (g.add_character c).1.group_id = g.group_id := by
  unfold SimpleGroup.add_character
  split_ifs <;> rfl

/-- `add_character` keeps a within-capacity group within capacity: it
only appends after `can_add_character` has checked
`len(characters) < max_size`. -/
theorem add_character_length_le (g : SimpleGroup) (c : SimpleCharacter)
    (h : g.characters.length ≤ g.max_size) :
    (g.add_character c).1.characters.length ≤ (g.add_character c).1.max_size := by
  by_cases hc : g.can_add_character c
  · have hlt : g.characters.length < g.max_size := by
      by_contra hge
      push_neg at hge
      simp [SimpleGroup.can_add_character, Nat.le_of_not_lt, hge] at hc
    simp [SimpleGroup.add_character, hc]
    omega
  · simp [SimpleGroup.add_character, hc, h]

/-- Members are only appended by `add_character`. -/
theorem add_character_mem (g : SimpleGroup) (c c' : SimpleCharacter)
    (h : c' ∈ g.characters) : c' ∈ (g.add_character c).1.characters := by
  unfold SimpleGroup.add_character
  split_ifs <;> simp [h]

/-- Setting a position to a within-capacity group preserves
`CapBounded`. -/
theorem capBounded_set {s : Nat} {gs : List SimpleGroup} {g' : SimpleGroup}
    (h : CapBounded s gs)
    (hg' : g'.characters.length ≤ g'.max_size ∧ g'.max_size = s) (i : Nat) :
    CapBounded s (gs.set i g') := by
  intro g hg
  rcases List.mem_or_eq_of_mem_set hg with h1 | h2
  · exact h g h1
  · exact h2 ▸ hg'

/-- The round-robin attempt loop preserves `CapBounded`. -/
theorem rrLoop_capBounded {s : Nat} (c : SimpleCharacter) (order : List Nat) :
    ∀ (k gi : Nat) (gs : List SimpleGroup), CapBounded s gs →
      CapBounded s (rrLoop c order k gi gs).1
  | 0, _, _, h => h
  | k + 1, gi, gs, h => by
    cases hget : gs.get? (order.getD gi 0) with
    | none =>
      simp only [rrLoop, hget]
      exact rrLoop_capBounded c order k _ gs h
    | some g =>
      simp only [rrLoop, hget]
      have hgmem := h g (List.get?_mem hget)
      by_cases hok : (g.add_character c).2 = true
      · rw [if_pos hok]
        exact capBounded_set h
          ⟨add_character_length_le g c hgmem.1,
           by rw [add_character_max_size]; exact hgmem.2⟩ _
      · rw [if_neg hok]
        exact rrLoop_capBounded c order k _ gs h

/-- The per-character round-robin loop preserves `CapBounded`. -/
theorem rrChars_capBounded {s : Nat} (order : List Nat) :
    ∀ (cs : List SimpleCharacter) (gi : Nat) (gs : List SimpleGroup),
      CapBounded s gs → CapBounded s (rrChars order cs gi gs).1
  | [], _, _, h => h
  | c :: cs, gi, gs, h => by
    unfold rrChars
    by_cases hskip : gs.any (fun g => decide (c ∈ g.characters))
    · simp only [hskip, if_true]
      exact rrChars_capBounded order cs gi gs h
    · simp only [eq_false hskip, if_false]
      exact rrChars_capBounded order cs _ _ (rrLoop_capBounded c order _ _ gs h)

/-- Role distribution preserves `CapBounded`, for every oracle. -/
theorem distributeRole_capBounded {s : Nat} (o : RandomOracle)
    (gs : List SimpleGroup) (cs : List SimpleCharacter) (h : CapBounded s gs) :
    CapBounded s (distributeRoleRoundRobin o gs cs) :=
  rrChars_capBounded _ _ _ _ h

/-- A tier phase preserves `CapBounded`, for every oracle. -/
theorem distributePriority_capBounded {s : Nat} (o : RandomOracle)
    (gs : List SimpleGroup) (cs : List SimpleCharacter) (h : CapBounded s gs) :
    CapBounded s (distributePriorityGroup o gs cs) := by
  unfold distributePriorityGroup
  by_cases he : cs.isEmpty
  · simpa [he]
  · simp only [he, if_false, Bool.false_eq_true]
    generalize (cs.filter _) = pool
    have : ∀ (roles : List String) (gs₀ : List SimpleGroup), CapBounded s gs₀ →
        CapBounded s (roles.foldl (fun gs' role =>
          let bucket := pool.filter (fun c => c.role_raid == role)
          if bucket.isEmpty then gs' else distributeRoleRoundRobin o gs' bucket) gs₀) := by
      intro roles
      induction roles with
      | nil => intro gs₀ h₀; exact h₀
      | cons r rs ih =>
        intro gs₀ h₀
        simp only [List.foldl_cons]
        apply ih
        by_cases hb : (pool.filter (fun c => c.role_raid == r)).isEmpty
        · simpa [hb]
        · simpa [hb] using distributeRole_capBounded o gs₀ _ h₀
    exact this rolePriority gs h

/-- One lock-application step preserves `CapBounded`. -/
theorem lockStep_capBounded {s : Nat} {gs : List SimpleGroup}
    (h : CapBounded s gs) (c : SimpleCharacter) : CapBounded s (lockStep gs c) := by
  unfold lockStep
  cases c.locked_to_group with
  | none => exact h
  | some tg =>
    by_cases hb : 1 ≤ tg ∧ tg ≤ gs.length
    · simp only [hb, if_true]
      cases hget : gs.get? (tg - 1) with
      | none => exact h
      | some g =>
        have hgmem := h g (List.get?_mem hget)
        refine capBounded_set h ⟨?_, ?_⟩ _
        · exact add_character_length_le g c hgmem.1
        · rw [add_character_max_size]; exact hgmem.2
    · simpa [hb]

/-- Lock application preserves `CapBounded`. -/
theorem applyLocked_capBounded {s : Nat} (gs : List SimpleGroup)
    (roster : List SimpleCharacter) (h : CapBounded s gs) :
    CapBounded s (applyLockedAssignments gs roster) := by
  unfold applyLockedAssignments
  generalize (roster.filter _) = locked
  induction locked generalizing gs with
  | nil => exact h
  | cons c cs ih => exact ih _ (lockStep_capBounded h c)

/-- The fresh groups of `create_groups` are bounded by `group_size`. -/
theorem initSimpleGroups_capBounded (n s : Nat) :
    CapBounded s (initSimpleGroups n s) := by
  intro g hg
  simp only [initSimpleGroups, List.mem_map] at hg
  obtain ⟨i, _, rfl⟩ := hg
  exact ⟨Nat.zero_le _, rfl⟩

/-- C2 amended. Capacity is respected throughout the **simple** variant:
for every roster, configuration, lock list and randomization outcome,
every group of `create_groups`' result has at most `group_size` members
(every phase adds only through `SimpleGroup.add_character`, which checks
the hard cap). The advanced variant's tank/healer seeding checks only
player conflicts and can exceed `group_size` (see the counterexample);
its buff-backfill and fill phases do bound themselves by `group_size`. -/
theorem C2_amended_simple_capacity :
    ∀ (roster : List SimpleCharacter) (n s : Nat) (locks : List SimpleLock)
      (o : RandomOracle),
      ((createGroups roster n s locks o).all
        (fun g => decide (g.characters.length ≤ s))) = true := by
  intro roster n s locks o
  rw [List.all_eq_true]
  intro g hg
  have h : CapBounded s (createGroups roster n s locks o) := by
    unfold createGroups
    apply distributePriority_capBounded
    apply distributePriority_capBounded
    apply distributePriority_capBounded
    apply distributePriority_capBounded
    apply applyLocked_capBounded
    exact initSimpleGroups_capBounded n s
  have hb := h g hg
  simp [hb.2 ▸ hb.1]

/-- `GrowsInto` is reflexive. -/
theorem growsInto_refl (gs : List SimpleGroup) : GrowsInto gs gs :=
  ⟨rfl, fun _ g hg => ⟨g, hg, rfl, rfl, fun _ hc => hc⟩⟩

/-- `GrowsInto` is transitive. -/
theorem growsInto_trans {a b c : List SimpleGroup}
    (h1 : GrowsInto a b) (h2 : GrowsInto b c) : GrowsInto a c := by
  refine ⟨h2.1.trans h1.1, fun i g hg => ?_⟩
  obtain ⟨g', hg', hid, hmax, hsub⟩ := h1.2 i g hg
  obtain ⟨g'', hg'', hid', hmax', hsub'⟩ := h2.2 i g' hg'
  exact ⟨g'', hg'', hid'.trans hid, hmax'.trans hmax,
    fun x hx => hsub' x (hsub x hx)⟩

/-- Replacing the group at a position with the result of adding a
character to it grows the state. -/
theorem growsInto_set_add {gs : List SimpleGroup} {i : Nat} {g : SimpleGroup}
    (c : SimpleCharacter) (hget : gs.get? i = some g) :
    GrowsInto gs (gs.set i (g.add_character c).1) := by
  have hi : i < gs.length := by
    by_contra hge
    rw [List.get?_eq_none.2 (Nat.le_of_not_lt hge)] at hget
    cases hget
  refine ⟨List.length_set .., fun j gj hgj => ?_⟩
  by_cases hij : i = j
  · subst hij
    have : gj = g := by rw [hget] at hgj; cases hgj; rfl
    subst this
    refine ⟨(gj.add_character c).1, ?_, add_character_group_id gj c,
      add_character_max_size gj c, fun x hx => add_character_mem gj c x hx⟩
    rw [List.get?_set_eq]
    simp [hi]
  · exact ⟨gj, by rw [List.get?_set_ne _ _ hij]; exact hgj, rfl, rfl,
      fun _ hx => hx⟩

/-- The round-robin attempt loop only grows the state. -/
theorem rrLoop_grows (c : SimpleCharacter) (order : List Nat) :
    ∀ (k gi : Nat) (gs : List SimpleGroup),
      GrowsInto gs (rrLoop c order k gi gs).1
  | 0, _, gs => growsInto_refl gs
  | k + 1, gi, gs => by
    cases hget : gs.get? (order.getD gi 0) with
    | none =>
      simp only [rrLoop, hget]
      exact rrLoop_grows c order k _ gs
    | some g =>
      simp only [rrLoop, hget]
      by_cases hok : (g.add_character c).2 = true
      · rw [if_pos hok]
        exact growsInto_set_add c hget
      · rw [if_neg hok]
        exact rrLoop_grows c order k _ gs

/-- The per-character round-robin loop only grows the state. -/
theorem rrChars_grows (order : List Nat) :
    ∀ (cs : List SimpleCharacter) (gi : Nat) (gs : List SimpleGroup),
      GrowsInto gs (rrChars order cs gi gs).1
  | [], _, gs => growsInto_refl gs
  | c :: cs, gi, gs => by
    unfold rrChars
    by_cases hskip : gs.any (fun g => decide (c ∈ g.characters))
    · simp only [hskip, if_true]
      exact rrChars_grows order cs gi gs
    · simp only [eq_false hskip, if_false]
      exact growsInto_trans (rrLoop_grows c order _ _ gs)
        (rrChars_grows order cs _ _)

/-- Role distribution only grows the state, for every oracle. -/
theorem distributeRole_grows (o : RandomOracle) (gs : List SimpleGroup)
    (cs : List SimpleCharacter) :
    GrowsInto gs (distributeRoleRoundRobin o gs cs) :=
  rrChars_grows _ _ _ _

/-- A tier phase only grows the state, for every oracle. -/
theorem distributePriority_grows (o : RandomOracle) (gs : List SimpleGroup)
    (cs : List SimpleCharacter) :
    GrowsInto gs (distributePriorityGroup o gs cs) := by
  unfold distributePriorityGroup
  by_cases he : cs.isEmpty
  · simpa [he] using growsInto_refl gs
  · simp only [he, if_false, Bool.false_eq_true]
    generalize (cs.filter _) = pool
    have : ∀ (roles : List String) (gs₀ : List SimpleGroup),
        GrowsInto gs₀ (roles.foldl (fun gs' role =>
          let bucket := pool.filter (fun c => c.role_raid == role)
          if bucket.isEmpty then gs' else distributeRoleRoundRobin o gs' bucket) gs₀) := by
      intro roles
      induction roles with
      | nil => intro gs₀; exact growsInto_refl gs₀
      | cons r rs ih =>
        intro gs₀
        simp only [List.foldl_cons]
        refine growsInto_trans ?_ (ih _)
        by_cases hb : (pool.filter (fun c => c.role_raid == r)).isEmpty
        · simpa [hb] using growsInto_refl gs₀
        · simpa [hb] using distributeRole_grows o gs₀ _
    exact this rolePriority gs

/-- One lock-application step only grows the state. -/
theorem lockStep_grows (gs : List SimpleGroup) (c : SimpleCharacter) :
    GrowsInto gs (lockStep gs c) := by
  unfold lockStep
  cases c.locked_to_group with
  | none => exact growsInto_refl gs
  | some tg =>
    by_cases hb : 1 ≤ tg ∧ tg ≤ gs.length
    · simp only [hb, if_true]
      cases hget : gs.get? (tg - 1) with
      | none => exact growsInto_refl gs
      | some g => exact growsInto_set_add c hget
    · simpa [hb] using growsInto_refl gs

/-- A fold of lock-application steps only grows the state. -/
theorem lockFold_grows :
    ∀ (cs : List SimpleCharacter) (gs : List SimpleGroup),
      GrowsInto gs (cs.foldl lockStep gs)
  | [], gs => growsInto_refl gs
  | c :: cs, gs => by
    simp only [List.foldl_cons]
    exact growsInto_trans (lockStep_grows gs c) (lockFold_grows cs _)

/-- Processing a lock whose target group has room, no player conflict
and the matching group id places the character into that group. -/
theorem lockStep_places {gs : List SimpleGroup} {C : SimpleCharacter}
    {G : Nat} {g : SimpleGroup}
    (hG : C.locked_to_group = some G) (hG1 : 1 ≤ G) (hGn : G ≤ gs.length)
    (hget : gs.get? (G - 1) = some g)
    (hcan : g.can_add_character C = true) :
    ∃ g', (lockStep gs C).get? (G - 1) = some g' ∧ C ∈ g'.characters := by
  have hi : G - 1 < gs.length := by omega
  unfold lockStep
  rw [hG]
  simp only [hG1, hGn, and_self, if_true, hget]
  refine ⟨(g.add_character C).1, ?_, ?_⟩
  · rw [List.get?_set_eq]
    simp [hi]
  · simp [SimpleGroup.add_character, hcan]

/-- C5. A lock for character `C` to group `G` (with `G` in range) that
is satisfiable when it is resolved — the target group still has free
capacity and `C`'s player is absent from it at that point in the lock
fold — puts `C` into group `G`, and `C` is still a member of group `G`
in the final result of `create_groups`: locks are applied before
automatic distribution, every later phase only ever appends members, and
the simple variant has no remove operation. The hypotheses name the
moment of resolution explicitly: `pre` are the locked characters
processed before `C`. -/
theorem C5_lock_honored
    (roster : List SimpleCharacter) (n s G : Nat) (locks : List SimpleLock)
    (o : RandomOracle) (C : SimpleCharacter)
    (pre post : List SimpleCharacter)
    (hsplit : (applyLockFlags roster locks).filter (fun c => c.is_locked)
      = pre ++ C :: post)
    (hG : C.locked_to_group = some G) (hG1 : 1 ≤ G) (hGn : G ≤ n)
    (g : SimpleGroup)
    (hget : (pre.foldl lockStep (initSimpleGroups n s)).get? (G - 1) = some g)
    (hcap : g.characters.length < g.max_size)
    (hplayer : C.player_id ∉ g.players_used) :
    ∃ g', (createGroups roster n s locks o).get? (G - 1) = some g' ∧
      C ∈ g'.characters := by
  -- The group at position `G-1` keeps the id it was created with.
  have hinit_len : (initSimpleGroups n s).length = n := by
    simp [initSimpleGroups]
  have hinit_get : (initSimpleGroups n s).get? (G - 1)
      = some { group_id := G, max_size := s } := by
    have hlt : G - 1 < n := by omega
    simp only [initSimpleGroups, List.get?_map]
    rw [List.get?_range hlt]
    simp only [Option.map_some']
    have : G - 1 + 1 = G := by omega
    rw [this]
  have hpre := lockFold_grows pre (initSimpleGroups n s)
  obtain ⟨g0, hg0, hid0, hmax0, _⟩ := hpre.2 (G - 1) _ hinit_get
  have hg0g : g0 = g := by rw [hget] at hg0; exact (Option.some.inj hg0).symm
  rw [hg0g] at hid0
  have hgid : g.group_id = G := by rw [hid0]
  -- `C` passes `can_add_character` at its resolution step.
  have hcan : g.can_add_character C = true := by
    unfold SimpleGroup.can_add_character
    rw [if_neg (by omega)]
    rw [if_neg (by simpa using hplayer)]
    rw [if_neg ?_]
    simp only [hG, hgid]
    simp
  -- The lock fold places `C` and the rest of the pipeline keeps it.
  have hlen_pre : (pre.foldl lockStep (initSimpleGroups n s)).length = n := by
    rw [hpre.1, hinit_len]
  obtain ⟨g1, hg1, hC1⟩ := lockStep_places hG hG1 (by omega) hget hcan
  have hafter : GrowsInto (lockStep (pre.foldl lockStep (initSimpleGroups n s)) C)
      (createGroups roster n s locks o) := by
    simp only [createGroups, applyLockedAssignments]
    rw [hsplit, List.foldl_append, List.foldl_cons]
    exact growsInto_trans (lockFold_grows post _)
      (growsInto_trans (distributePriority_grows o _ _)
        (growsInto_trans (distributePriority_grows o _ _)
          (growsInto_trans (distributePriority_grows o _ _)
            (distributePriority_grows o _ _))))
  obtain ⟨g', hg', _, _, hsub⟩ := hafter.2 (G - 1) g1 hg1
  exact ⟨g', hg', hsub C hC1⟩

/-- C5 witness: one character locked to the single group of capacity 1
via the lock list; it ends up in that group. -/
theorem C5_lock_honored_witness :
    ∃ g', (createGroups [mkSChar "SC" "sp3" "tank" "main"] 1 1
        [⟨"SC", 1⟩] idOracle).get? 0 = some g' ∧ chSC ∈ g'.characters :=
  C5_lock_honored [mkSChar "SC" "sp3" "tank" "main"] 1 1 1 [⟨"SC", 1⟩]
    idOracle chSC [] [] (by decide) (by decide) (by decide) (by decide)
    { group_id := 1, max_size := 1 } (by decide) (by decide) (by decide)

/-- The returned flag of `add_character` is exactly
`can_add_character`. -/
theorem add_character_snd (g : SimpleGroup) (c : SimpleCharacter) :
    (g.add_character c).2 = g.can_add_character c := by
  unfold SimpleGroup.add_character
  split_ifs with h <;> simp [h]

/-- A successful `add_character` makes the character a member. -/
theorem add_character_mem_self {g : SimpleGroup} {c : SimpleCharacter}
    (h : (g.add_character c).2 = true) :
    c ∈ (g.add_character c).1.characters := by
  unfold SimpleGroup.add_character at h ⊢
  split_ifs at h ⊢ <;> simp_all

/-- A successful `add_character` appends the character. -/
theorem add_character_chars_of_ok {g : SimpleGroup} {c : SimpleCharacter}
    (h : (g.add_character c).2 = true) :
    (g.add_character c).1.characters = g.characters ++ [c] := by
  unfold SimpleGroup.add_character at h ⊢
  split_ifs at h ⊢ <;> simp_all

/-- Adding to a full group fails. -/
theorem add_character_full {g : SimpleGroup} (c : SimpleCharacter)
    (h : g.max_size ≤ g.characters.length) :
    (g.add_character c).2 = false := by
  rw [add_character_snd]
  unfold SimpleGroup.can_add_character
  rw [if_pos (show g.characters.length ≥ g.max_size from h)]

/-- `can_add_character` holds when there is room, no player conflict and
no lock. -/
theorem can_add_of (g : SimpleGroup) (c : SimpleCharacter)
    (hsize : g.characters.length < g.max_size)
    (hpl : c.player_id ∉ g.players_used) (hlock : c.is_locked = false) :
    g.can_add_character c = true := by
  unfold SimpleGroup.can_add_character
  rw [if_neg (by omega), if_neg (by simpa using hpl),
    if_neg (by simp [hlock])]

/-- `rrLoop` started at position 0 with the full attempt budget is the
left-to-right first-fit over the ordering. -/
theorem rrLoop_eq_rrList (c : SimpleCharacter) (order : List Nat) :
    ∀ (k gi : Nat) (gs : List SimpleGroup), gi + k = order.length →
      (rrLoop c order k gi gs).1 = (rrList c (order.drop gi) gs).1 ∧
      (rrLoop c order k gi gs).2.2 = (rrList c (order.drop gi) gs).2 := by
  intro k
  induction k with
  | zero =>
    intro gi gs hk
    have : gi = order.length := by omega
    subst this
    rw [List.drop_length]
    exact ⟨rfl, rfl⟩
  | succ k ih =>
    intro gi gs hk
    have hlt : gi < order.length := by omega
    have hgetD : order.getD gi 0 = order[gi] := by
      simp [List.getD_eq_getElem?_getD, List.getElem?_eq_getElem hlt]
    have hdrop : order.drop gi = order[gi] :: order.drop (gi + 1) :=
      List.drop_eq_getElem_cons hlt
    rcases Nat.lt_or_ge (gi + 1) order.length with hlt1 | hge1
    · have hmod : (gi + 1) % order.length = gi + 1 := Nat.mod_eq_of_lt hlt1
      cases hget : gs.get? (order[gi]) with
      | none =>
        simp only [rrLoop, hgetD, hget, hmod, hdrop, rrList]
        exact ih (gi + 1) gs (by omega)
      | some g =>
        by_cases hok : (g.add_character c).2 = true
        · simp only [rrLoop, hgetD, hget, hdrop, rrList, if_pos hok]
          exact ⟨by trivial, by trivial⟩
        · simp only [rrLoop, hgetD, hget, hmod, hdrop, rrList, if_neg hok]
          exact ih (gi + 1) gs (by omega)
    · have hk0 : k = 0 := by omega
      have hg1 : gi + 1 = order.length := by omega
      subst hk0
      cases hget : gs.get? (order[gi]) with
      | none =>
        simp only [rrLoop, hgetD, hget, hdrop, rrList, hg1, List.drop_length]
        exact ⟨by trivial, by trivial⟩
      | some g =>
        by_cases hok : (g.add_character c).2 = true
        · simp only [rrLoop, hgetD, hget, hdrop, rrList, if_pos hok]
          exact ⟨by trivial, by trivial⟩
        · simp only [rrLoop, hgetD, hget, hdrop, rrList, if_neg hok, hg1,
            List.drop_length]
          exact ⟨by trivial, by trivial⟩

/-- First-fit over indices none of which can take the character leaves
the state unchanged. -/
theorem rrList_unchanged {c : SimpleCharacter} {gs : List SimpleGroup} :
    ∀ {idxs : List Nat},
      (∀ i ∈ idxs, ∀ g, gs.get? i = some g → (g.add_character c).2 = false) →
      rrList c idxs gs = (gs, false)
  | [], _ => rfl
  | i :: is, h => by
    cases hget : gs.get? i with
    | none =>
      simp only [rrList, hget]
      exact rrList_unchanged (fun i' hi' => h i' (List.mem_cons_of_mem _ hi'))
    | some g =>
      have hfail : (g.add_character c).2 = false :=
        h i (List.mem_cons_self i is) g hget
      simp only [rrList, hget, hfail, Bool.false_eq_true, if_false]
      exact rrList_unchanged (fun i' hi' => h i' (List.mem_cons_of_mem _ hi'))

/-- First-fit places the character at the first index whose group can
take it. -/
theorem rrList_places {c : SimpleCharacter} {gs : List SimpleGroup}
    {j : Nat} {gj : SimpleGroup}
    (hj : gs.get? j = some gj) (hok : (gj.add_character c).2 = true) :
    ∀ {pre : List Nat} (post : List Nat),
      (∀ i ∈ pre, ∀ g, gs.get? i = some g → (g.add_character c).2 = false) →
      rrList c (pre ++ j :: post) gs = (gs.set j (gj.add_character c).1, true)
  | [], post, _ => by
    simp only [List.nil_append, rrList, hj, if_pos hok]
  | i :: pre, post, h => by
    cases hget : gs.get? i with
    | none =>
      simp only [List.cons_append, rrList, hget]
      exact rrList_places hj hok post
        (fun i' hi' => h i' (List.mem_cons_of_mem _ hi'))
    | some g =>
      have hfail : (g.add_character c).2 = false :=
        h i (List.mem_cons_self i pre) g hget
      simp only [List.cons_append, rrList, hget, hfail, Bool.false_eq_true,
        if_false]
      exact rrList_places hj hok post
        (fun i' hi' => h i' (List.mem_cons_of_mem _ hi'))

/-- A tier phase on an empty bucket does nothing. -/
theorem distributePriority_nil (o : RandomOracle) (gs : List SimpleGroup) :
    distributePriorityGroup o gs [] = gs := by
  simp [distributePriorityGroup]

/-- The role fold of a tier phase skips every role the lone pool
character does not have. -/
theorem roleFold_skip (o : RandomOracle) (c : SimpleCharacter) :
    ∀ (roles : List String) (gs : List SimpleGroup),
      (∀ r ∈ roles, c.role_raid ≠ r) →
      roles.foldl (fun gs' role =>
        let bucket := [c].filter (fun x => x.role_raid == role)
        if bucket.isEmpty then gs' else distributeRoleRoundRobin o gs' bucket) gs
        = gs
  | [], _, _ => rfl
  | r :: rs, gs, h => by
    have hne : (c.role_raid == r) = false :=
      beq_eq_false_iff_ne.2 (h r (List.mem_cons_self r rs))
    simp only [List.foldl_cons, List.filter_singleton, hne, cond_false,
      List.isEmpty_nil, if_true]
    exact roleFold_skip o c rs gs (fun r' hr' => h r' (List.mem_cons_of_mem _ hr'))

/-- The role fold of a tier phase distributes the lone pool character at
its own role and skips everywhere else. -/
theorem roleFold_hit (o : RandomOracle) (c : SimpleCharacter) :
    ∀ (pre post : List String) (gs : List SimpleGroup),
      (∀ r ∈ pre, c.role_raid ≠ r) → (∀ r ∈ post, c.role_raid ≠ r) →
      (pre ++ c.role_raid :: post).foldl (fun gs' role =>
        let bucket := [c].filter (fun x => x.role_raid == role)
        if bucket.isEmpty then gs' else distributeRoleRoundRobin o gs' bucket) gs
        = distributeRoleRoundRobin o gs [c]
  | [], post, gs, _, hpost => by
    simp only [List.nil_append, List.foldl_cons, List.filter_singleton,
      beq_self_eq_true, cond_true, List.isEmpty_cons, Bool.false_eq_true,
      if_false]
    exact roleFold_skip o c post _ hpost
  | r :: pre, post, gs, hpre, hpost => by
    have hne : (c.role_raid == r) = false :=
      beq_eq_false_iff_ne.2 (hpre r (List.mem_cons_self r pre))
    simp only [List.cons_append, List.foldl_cons, List.filter_singleton, hne,
      cond_false, List.isEmpty_nil, if_true]
    exact roleFold_hit o c pre post gs
      (fun r' hr' => hpre r' (List.mem_cons_of_mem _ hr')) hpost

/-- A tier phase on a single not-yet-assigned character of a recognized
role is one round-robin attempt loop over the oracle's ordering. -/
theorem distributePriority_singleton (o : RandomOracle) (gs : List SimpleGroup)
    (c : SimpleCharacter)
    (hsh : ∀ l, (o.shuffle l).Perm l)
    (hnotin : ∀ g ∈ gs, c ∉ g.characters)
    (hrole : c.role_raid ∈ rolePriority) :
    distributePriorityGroup o gs [c]
      = (rrLoop c (o.orderGroups gs) (o.orderGroups gs).length 0 gs).1 := by
  have hskip : (gs.any (fun g => decide (c ∈ g.characters))) = false := by
    rw [List.any_eq_false]
    intro g hg
    simpa using hnotin g hg
  have hunass : [c].filter
      (fun x => !(gs.any (fun g => decide (x ∈ g.characters)))) = [c] := by
    simp [hskip]
  have hrr : distributeRoleRoundRobin o gs [c]
      = (rrLoop c (o.orderGroups gs) (o.orderGroups gs).length 0 gs).1 := by
    simp only [distributeRoleRoundRobin]
    rw [List.perm_singleton.1 (hsh [c])]
    simp only [rrChars, hskip, Bool.false_eq_true, if_false]
  obtain ⟨pre, post, hsplit⟩ := List.append_of_mem hrole
  have hnd : rolePriority.Nodup := by decide
  rw [hsplit] at hnd
  have hnd' := List.nodup_append.1 hnd
  have hpre : ∀ r ∈ pre, c.role_raid ≠ r := by
    intro r hr heq
    exact hnd'.2.2 hr (heq ▸ List.mem_cons_self _ _)
  have hpost : ∀ r ∈ post, c.role_raid ≠ r := by
    intro r hr heq
    exact ((List.nodup_cons.1 hnd'.2.1).1) (heq ▸ hr)
  simp only [distributePriorityGroup, List.isEmpty_cons, Bool.false_eq_true,
    if_false]
  rw [hunass, hsplit, roleFold_hit o c pre post gs hpre hpost, hrr]

/-- C6 amended. Priority ordering holds in the **simple** variant (the
advanced variant's seeding ignores capacity and can assign the helper
too — see the counterexample): running the four tier phases of
`create_groups` (from any state, e.g. after lock application) on a
roster of one unlocked `main` and one unlocked `helper` of the same
recognized role, with exactly one free slot across all groups and no
player conflicts, assigns the main character and leaves the helper in no
group — for *every* shuffle and every group-ordering the randomization
can produce. -/
theorem C6_amended_priority_ordering
    (o : RandomOracle) (gs : List SimpleGroup) (cm ch : SimpleCharacter)
    (j : Nat) (gj : SimpleGroup)
    (hsh : ∀ l, (o.shuffle l).Perm l)
    (hord : ∀ gs₀ : List SimpleGroup,
      (o.orderGroups gs₀).Perm (List.range gs₀.length))
    (hcm_tier : cm.role_group = "main") (hch_tier : ch.role_group = "helper")
    (hrole : ch.role_raid = cm.role_raid) (hvalid : cm.role_raid ∈ rolePriority)
    (hcml : cm.is_locked = false) (hchl : ch.is_locked = false)
    (hcm_abs : ∀ g ∈ gs, cm ∉ g.characters ∧ cm.player_id ∉ g.players_used)
    (hch_abs : ∀ g ∈ gs, ch ∉ g.characters ∧ ch.player_id ∉ g.players_used)
    (hj : gs.get? j = some gj) (hfree : gj.characters.length + 1 = gj.max_size)
    (hothers : ∀ i g, gs.get? i = some g → i ≠ j →
      g.max_size ≤ g.characters.length) :
    (∃ g' ∈ distributePriorityGroup o
        (distributePriorityGroup o
          (distributePriorityGroup o
            (distributePriorityGroup o gs (bucketOf [cm, ch] "main"))
            (bucketOf [cm, ch] "alt"))
          (bucketOf [cm, ch] "helper"))
        (bucketOf [cm, ch] "inactive"), cm ∈ g'.characters) ∧
    ∀ g' ∈ distributePriorityGroup o
        (distributePriorityGroup o
          (distributePriorityGroup o
            (distributePriorityGroup o gs (bucketOf [cm, ch] "main"))
            (bucketOf [cm, ch] "alt"))
          (bucketOf [cm, ch] "helper"))
        (bucketOf [cm, ch] "inactive"), ch ∉ g'.characters := by
  have hchcm : ch ≠ cm := by
    intro h
    rw [h, hcm_tier] at hch_tier
    exact absurd hch_tier (by decide)
  -- Bucket contents.
  have hbm : bucketOf [cm, ch] "main" = [cm] := by
    simp [bucketOf, List.filter, hcm_tier, hch_tier]
  have hba : bucketOf [cm, ch] "alt" = [] := by
    simp [bucketOf, List.filter, hcm_tier, hch_tier]
  have hbh : bucketOf [cm, ch] "helper" = [ch] := by
    simp [bucketOf, List.filter, hcm_tier, hch_tier]
  have hbi : bucketOf [cm, ch] "inactive" = [] := by
    simp [bucketOf, List.filter, hcm_tier, hch_tier]
  -- Facts about the free group.
  have hjlt : j < gs.length := by
    rcases List.get?_eq_some.1 hj with ⟨h, _⟩
    exact h
  have hjmem : gj ∈ gs := List.get?_mem hj
  have hok : (gj.add_character cm).2 = true := by
    rw [add_character_snd]
    exact can_add_of gj cm (by omega) (hcm_abs gj hjmem).2 hcml
  -- Phase 1 places `cm` into the unique group with room.
  set order := o.orderGroups gs with horder_def
  have hperm := hord gs
  have hlen : order.length = gs.length := by
    have := hperm.length_eq
    simpa using this
  have hjin : j ∈ order := hperm.mem_iff.2 (List.mem_range.2 hjlt)
  obtain ⟨opre, opost, hosplit⟩ := List.append_of_mem hjin
  have hond : order.Nodup := hperm.nodup_iff.2 (List.nodup_range _)
  have hjpre : j ∉ opre := by
    rw [hosplit] at hond
    intro hin
    exact (List.nodup_append.1 hond).2.2 hin (List.mem_cons_self _ _)
  have hpre_fail : ∀ i ∈ opre, ∀ g, gs.get? i = some g →
      (g.add_character cm).2 = false := by
    intro i hi g hg
    have hine : i ≠ j := fun h => hjpre (h ▸ hi)
    exact add_character_full cm (hothers i g hg hine)
  have hphase1 : distributePriorityGroup o gs (bucketOf [cm, ch] "main")
      = gs.set j (gj.add_character cm).1 := by
    rw [hbm, distributePriority_singleton o gs cm hsh
      (fun g hg => (hcm_abs g hg).1) hvalid]
    rw [(rrLoop_eq_rrList cm order order.length 0 gs (by omega)).1]
    rw [List.drop_zero, hosplit]
    rw [rrList_places hj hok opost hpre_fail]
  set gsNew := gs.set j (gj.add_character cm).1 with hGsSet
  have hgsNew_chars : (gj.add_character cm).1.characters
      = gj.characters ++ [cm] := add_character_chars_of_ok hok
  have hgsNew_get_j : gsNew.get? j = some (gj.add_character cm).1 := by
    rw [hGsSet, List.get?_set_eq]
    simp [hjlt]
  have hgsNew_get_ne : ∀ i, i ≠ j → gsNew.get? i = gs.get? i := by
    intro i hi
    rw [hGsSet, List.get?_set_ne _ _ (fun h => hi h.symm)]
  -- Every group of the new state is full.
  have hAllFull : ∀ i g, gsNew.get? i = some g → (g.add_character ch).2 = false := by
    intro i g hg
    by_cases hij : i = j
    · subst hij
      rw [hgsNew_get_j] at hg
      cases hg
      apply add_character_full
      rw [hgsNew_chars, add_character_max_size]
      simp only [List.length_append, List.length_cons, List.length_nil]
      omega
    · rw [hgsNew_get_ne i hij] at hg
      exact add_character_full ch (hothers i g hg hij)
  -- Membership facts in the new state.
  have hmem_gsNew : ∀ g ∈ gsNew, ch ∉ g.characters := by
    intro g hg
    rcases List.mem_or_eq_of_mem_set (hGsSet ▸ hg) with hold | hnew
    · exact (hch_abs g hold).1
    · rw [hnew, hgsNew_chars]
      intro hc
      rcases List.mem_append.1 hc with hc1 | hc2
      · exact (hch_abs gj hjmem).1 hc1
      · exact hchcm (List.mem_singleton.1 hc2)
  -- Phases 2-4 leave the state unchanged.
  have hphase2 : distributePriorityGroup o gsNew (bucketOf [cm, ch] "alt") = gsNew := by
    rw [hba, distributePriority_nil]
  have hphase3 : distributePriorityGroup o gsNew (bucketOf [cm, ch] "helper")
      = gsNew := by
    rw [hbh, distributePriority_singleton o gsNew ch hsh hmem_gsNew
      (hrole ▸ hvalid)]
    rw [(rrLoop_eq_rrList ch (o.orderGroups gsNew) (o.orderGroups gsNew).length 0
      gsNew (by omega)).1]
    rw [List.drop_zero]
    rw [rrList_unchanged (fun i _ g hg => hAllFull i g hg)]
  have hphase4 : distributePriorityGroup o gsNew (bucketOf [cm, ch] "inactive")
      = gsNew := by
    rw [hbi, distributePriority_nil]
  rw [hphase1, hphase2, hphase3, hphase4]
  constructor
  · refine ⟨(gj.add_character cm).1, List.get?_mem hgsNew_get_j, ?_⟩
    exact add_character_mem_self hok
  · exact hmem_gsNew

/-- C6 amended, witness: one empty group of capacity 1, a main tank and
a helper tank of distinct players, identity randomization — the main is
placed, the helper is not. -/
theorem C6_amended_priority_ordering_witness :
    (∃ g' ∈ distributePriorityGroup idOracle
        (distributePriorityGroup idOracle
          (distributePriorityGroup idOracle
            (distributePriorityGroup idOracle [cxOneSlot]
              (bucketOf [chSM, chSH] "main"))
            (bucketOf [chSM, chSH] "alt"))
          (bucketOf [chSM, chSH] "helper"))
        (bucketOf [chSM, chSH] "inactive"), chSM ∈ g'.characters) ∧
    ∀ g' ∈ distributePriorityGroup idOracle
        (distributePriorityGroup idOracle
          (distributePriorityGroup idOracle
            (distributePriorityGroup idOracle [cxOneSlot]
              (bucketOf [chSM, chSH] "main"))
            (bucketOf [chSM, chSH] "alt"))
          (bucketOf [chSM, chSH] "helper"))
        (bucketOf [chSM, chSH] "inactive"), chSH ∉ g'.characters :=
  C6_amended_priority_ordering idOracle [cxOneSlot] chSM chSH 0 cxOneSlot
    (fun l => List.Perm.refl l) (fun gs₀ => List.Perm.refl _)
    (by decide) (by decide) (by decide) (by decide) (by decide) (by decide)
    (by decide) (by decide) (by decide) (by decide)
    (by
      intro i g hg hij
      rcases i with _ | i
      · exact absurd rfl hij
      · rw [List.get?_cons_succ, List.get?_nil] at hg
        cases hg)

/-- `insertPrioDesc` is Mathlib's ordered insertion for the
descending-priority relation. -/
theorem insertPrioDesc_eq (c : Character) (l : List Character) :
    insertPrioDesc c l = List.orderedInsert prioGE c l := by
  induction l with
  | nil => rfl
  | cons d ds ih =>
    unfold insertPrioDesc List.orderedInsert
    by_cases h : prioOf d > prioOf c
    · rw [if_pos h, if_neg (by unfold prioGE; omega), ih]
    · rw [if_neg h, if_pos (by unfold prioGE; omega)]

/-- `sortByPriorityDesc` is insertion sort for the descending-priority
relation. -/
theorem sortByPriorityDesc_eq (l : List Character) :
    sortByPriorityDesc l = List.insertionSort prioGE l := by
  induction l with
  | nil => rfl
  | cons c cs ih =>
    unfold sortByPriorityDesc List.insertionSort
    rw [ih, insertPrioDesc_eq]

/-- The priority sort permutes its input. -/
theorem sortByPriorityDesc_perm (l : List Character) :
    (sortByPriorityDesc l).Perm l := by
  rw [sortByPriorityDesc_eq]
  exact List.perm_insertionSort prioGE l

/-- The priority sort sorts by descending priority. -/
theorem sortByPriorityDesc_sorted (l : List Character) :
    List.Sorted prioGE (sortByPriorityDesc l) := by
  rw [sortByPriorityDesc_eq]
  exact List.sorted_insertionSort prioGE l

/-- Positionwise form of the sortedness: earlier entries have at least
the priority of later ones. -/
theorem sortByPriorityDesc_get?_le (l : List Character) (a b : Nat)
    (hab : a ≤ b) (ta tb : Character)
    (ha : (sortByPriorityDesc l).get? a = some ta)
    (hb : (sortByPriorityDesc l).get? b = some tb) :
    prioOf tb ≤ prioOf ta := by
  obtain ⟨halt, hae⟩ := List.get?_eq_some.1 ha
  obtain ⟨hblt, hbe⟩ := List.get?_eq_some.1 hb
  have := (sortByPriorityDesc_sorted l).rel_get_of_le
    (a := ⟨a, halt⟩) (b := ⟨b, hblt⟩) hab
  rw [hae, hbe] at this
  exact this

/-- The flag returned by `RaidGroup.add_character` is exactly
`can_add_character`. -/
theorem raid_add_snd (g : RaidGroup) (c : Character) :
    (g.add_character c).2 = g.can_add_character c := by
  unfold RaidGroup.add_character
  split_ifs with h <;> simp [h]

/-- `RaidGroup.add_character` only ever appends to the tank list. -/
theorem raid_add_tanks_mono (g : RaidGroup) (c : Character) {x : Character}
    (h : x ∈ g.tanks) : x ∈ (g.add_character c).1.tanks := by
  unfold RaidGroup.add_character
  split_ifs <;> simp [h]

/-- `RaidGroup.add_character` only ever appends to the healer list. -/
theorem raid_add_healers_mono (g : RaidGroup) (c : Character) {x : Character}
    (h : x ∈ g.healers) : x ∈ (g.add_character c).1.healers := by
  unfold RaidGroup.add_character
  split_ifs <;> simp [h]

/-- A successful add of a tank puts it in the tank list. -/
theorem raid_add_tank_self {g : RaidGroup} {c : Character}
    (hok : (g.add_character c).2 = true) (hrole : c.role_raid = "tank") :
    c ∈ (g.add_character c).1.tanks := by
  unfold RaidGroup.add_character at hok ⊢
  split_ifs at hok ⊢ <;> simp_all

/-- A successful add of a healer puts it in the healer list. -/
theorem raid_add_healer_self {g : RaidGroup} {c : Character}
    (hok : (g.add_character c).2 = true) (hrole : c.role_raid = "healer") :
    c ∈ (g.add_character c).1.healers := by
  unfold RaidGroup.add_character at hok ⊢
  split_ifs at hok ⊢ <;> simp_all

/-- The players recorded after an add are among the old ones plus the
added character's player. -/
theorem raid_add_players (g : RaidGroup) (c : Character) {p : String}
    (h : p ∈ (g.add_character c).1.players_used) :
    p ∈ g.players_used ∨ p = c.player_id := by
  unfold RaidGroup.add_character at h
  split_ifs at h <;> simp_all

/-- Adding a character whose player is absent succeeds. -/
theorem raid_add_ok {g : RaidGroup} {c : Character}
    (h : c.player_id ∉ g.players_used) : (g.add_character c).2 = true := by
  rw [raid_add_snd]
  unfold RaidGroup.can_add_character
  simpa using h

/-- Setting a valid position makes `get?` return the new element. -/
theorem get?_set_self {α : Type _} (l : List α) (i : Nat) (a : α)
    (h : i < l.length) : (l.set i a).get? i = some a := by
  rw [List.get?_eq_getElem?]
  exact List.getElem?_set_eq_of_lt a h

/-- The tank loop never removes anyone from a tank list. -/
theorem tankLoop_tanks_grow (n : Nat) :
    ∀ (ts : List Character) (i : Nat) (gs : List RaidGroup)
      (used : List Character) (idx : Nat) (g : RaidGroup),
      gs.get? idx = some g →
      ∃ g', (tankLoop n ts i gs used).1.get? idx = some g' ∧
        ∀ x ∈ g.tanks, x ∈ g'.tanks
  | [], _, _, _, _, g, hg => ⟨g, hg, fun _ hx => hx⟩
  | t :: ts, i, gs, used, idx, g, hg => by
    cases hget : gs.get? (i % n) with
    | none =>
      simp only [tankLoop, hget]
      exact tankLoop_tanks_grow n ts (i + 1) gs used idx g hg
    | some g0 =>
      simp only [tankLoop, hget]
      by_cases hidx : i % n = idx
      · subst hidx
        have hg0g : g0 = g := by rw [hget] at hg; exact Option.some.inj hg
        subst hg0g
        have hset : (gs.set (i % n) (g0.add_character t).1).get? (i % n)
            = some (g0.add_character t).1 :=
          get?_set_self _ _ _ (List.get?_eq_some.1 hg).1
        obtain ⟨g', hg', hmono⟩ :=
          tankLoop_tanks_grow n ts (i + 1) _ _ (i % n) _ hset
        exact ⟨g', hg', fun x hx => hmono x (raid_add_tanks_mono _ _ hx)⟩
      · have hset : (gs.set (i % n) (g0.add_character t).1).get? idx
            = some g := by rw [List.get?_set_ne _ _ hidx]; exact hg
        exact tankLoop_tanks_grow n ts (i + 1) _ _ idx g hset

/-- The tank round-robin: when the (priority-sorted) tank list has
pairwise-distinct players, none already seated, the tank at position `p`
ends up in the tank list of group `(i + p) % n`. -/
theorem tankLoop_places (n : Nat) (hn : 0 < n) :
    ∀ (ts : List Character) (i : Nat) (gs : List RaidGroup)
      (used : List Character),
      gs.length = n →
      (ts.map (fun c => c.player_id)).Nodup →
      (∀ t ∈ ts, ∀ g ∈ gs, t.player_id ∉ g.players_used) →
      (∀ t ∈ ts, t.role_raid = "tank") →
      ∀ p t, ts.get? p = some t →
        ∃ g, (tankLoop n ts i gs used).1.get? ((i + p) % n) = some g ∧
          t ∈ g.tanks
  | [], _, _, _, _, _, _, _, p, t, hp => by rw [List.get?_nil] at hp; cases hp
  | t0 :: ts, i, gs, used, hlen, hnd, habs, hrole, p, t, hp => by
    have hmlt : i % n < gs.length := by rw [hlen]; exact Nat.mod_lt _ hn
    obtain ⟨g0, hg0⟩ : ∃ g0, gs.get? (i % n) = some g0 :=
      ⟨gs.get ⟨i % n, hmlt⟩, List.get?_eq_get hmlt⟩
    have hok : (g0.add_character t0).2 = true :=
      raid_add_ok (habs t0 (List.mem_cons_self _ _) g0 (List.get?_mem hg0))
    simp only [tankLoop, hg0, hok, if_true]
    have hsetlen : (gs.set (i % n) (g0.add_character t0).1).length = n := by
      rw [List.length_set]; exact hlen
    cases p with
    | zero =>
      rw [Nat.add_zero]
      have hset : (gs.set (i % n) (g0.add_character t0).1).get? (i % n)
          = some (g0.add_character t0).1 :=
        get?_set_self _ _ _ hmlt
      obtain ⟨g', hg', hmono⟩ :=
        tankLoop_tanks_grow n ts (i + 1) _ (used ++ [t0]) (i % n) _ hset
      have ht0 : t0 = t := by rw [List.get?_cons_zero] at hp; exact Option.some.inj hp
      subst ht0
      exact ⟨g', hg', hmono t0
        (raid_add_tank_self hok (hrole t0 (List.mem_cons_self _ _)))⟩
    | succ p' =>
      rw [List.get?_cons_succ] at hp
      have hnd' : (ts.map (fun c => c.player_id)).Nodup := by
        rw [List.map_cons] at hnd
        exact (List.nodup_cons.1 hnd).2
      have hhd : t0.player_id ∉ ts.map (fun c => c.player_id) := by
        rw [List.map_cons] at hnd
        exact (List.nodup_cons.1 hnd).1
      have habs' : ∀ x ∈ ts, ∀ g ∈ gs.set (i % n) (g0.add_character t0).1,
          x.player_id ∉ g.players_used := by
        intro x hx g hgmem hpin
        rcases List.mem_or_eq_of_mem_set hgmem with hold | hnew
        · exact habs x (List.mem_cons_of_mem _ hx) g hold hpin
        · subst hnew
          rcases raid_add_players g0 t0 hpin with hp0 | hpe
          · exact habs x (List.mem_cons_of_mem _ hx) g0 (List.get?_mem hg0) hp0
          · exact hhd (hpe ▸ List.mem_map_of_mem (fun c => c.player_id) hx)
      have hrole' : ∀ x ∈ ts, x.role_raid = "tank" :=
        fun x hx => hrole x (List.mem_cons_of_mem _ hx)
      have := tankLoop_places n hn ts (i + 1) _ (used ++ [t0]) hsetlen hnd'
        habs' hrole' p' t hp
      have harith : i + 1 + p' = i + (p' + 1) := by omega
      rw [harith] at this
      exact this

/-- The healer loop never removes anyone from a healer list. -/
theorem healerEnough_healers_grow (hpg : Nat) :
    ∀ (hs : List Character) (i : Nat) (gs : List RaidGroup)
      (used : List Character) (idx : Nat) (g : RaidGroup),
      gs.get? idx = some g →
      ∃ g', (healerEnoughLoop hpg hs i gs used).1.get? idx = some g' ∧
        ∀ x ∈ g.healers, x ∈ g'.healers
  | [], _, _, _, _, g, hg => ⟨g, hg, fun _ hx => hx⟩
  | h0 :: hs, i, gs, used, idx, g, hg => by
    by_cases hguard : i / hpg < gs.length
    · simp only [healerEnoughLoop, if_pos hguard]
      cases hget : gs.get? (i / hpg) with
      | none => exact healerEnough_healers_grow hpg hs (i + 1) gs used idx g hg
      | some g0 =>
        by_cases hidx : i / hpg = idx
        · subst hidx
          have hg0g : g0 = g := by rw [hget] at hg; exact Option.some.inj hg
          subst hg0g
          have hset : (gs.set (i / hpg) (g0.add_character h0).1).get? (i / hpg)
              = some (g0.add_character h0).1 :=
            get?_set_self _ _ _ (List.get?_eq_some.1 hg).1
          obtain ⟨g', hg', hmono⟩ :=
            healerEnough_healers_grow hpg hs (i + 1) _ _ (i / hpg) _ hset
          exact ⟨g', hg', fun x hx => hmono x (raid_add_healers_mono _ _ hx)⟩
        · have hset : (gs.set (i / hpg) (g0.add_character h0).1).get? idx
              = some g := by rw [List.get?_set_ne _ _ hidx]; exact hg
          exact healerEnough_healers_grow hpg hs (i + 1) _ _ idx g hset
    · simp only [healerEnoughLoop, if_neg hguard]
      exact healerEnough_healers_grow hpg hs (i + 1) gs used idx g hg

/-- The enough-healers branch is block distribution: the healer at
position `p` ends up in the healer list of group `(i + p) / hpg`. -/
theorem healerEnough_places (hpg : Nat) :
    ∀ (hs : List Character) (i : Nat) (gs : List RaidGroup)
      (used : List Character),
      (hs.map (fun c => c.player_id)).Nodup →
      (∀ x ∈ hs, ∀ g ∈ gs, x.player_id ∉ g.players_used) →
      (∀ x ∈ hs, x.role_raid = "healer") →
      ∀ p h, hs.get? p = some h → (i + p) / hpg < gs.length →
        ∃ g, (healerEnoughLoop hpg hs i gs used).1.get? ((i + p) / hpg)
          = some g ∧ h ∈ g.healers
  | [], _, _, _, _, _, _, p, h, hp, _ => by rw [List.get?_nil] at hp; cases hp
  | h0 :: hs, i, gs, used, hnd, habs, hrole, p, h, hp, hplt => by
    have hguard : i / hpg < gs.length :=
      Nat.lt_of_le_of_lt (Nat.div_le_div_right (Nat.le_add_right i p)) hplt
    obtain ⟨g0, hg0⟩ : ∃ g0, gs.get? (i / hpg) = some g0 :=
      ⟨gs.get ⟨i / hpg, hguard⟩, List.get?_eq_get hguard⟩
    have hok : (g0.add_character h0).2 = true :=
      raid_add_ok (habs h0 (List.mem_cons_self _ _) g0 (List.get?_mem hg0))
    simp only [healerEnoughLoop, if_pos hguard, hg0, hok, if_true]
    have hsetlen : (gs.set (i / hpg) (g0.add_character h0).1).length
        = gs.length := List.length_set ..
    cases p with
    | zero =>
      rw [Nat.add_zero]
      have hset : (gs.set (i / hpg) (g0.add_character h0).1).get? (i / hpg)
          = some (g0.add_character h0).1 :=
        get?_set_self _ _ _ hguard
      obtain ⟨g', hg', hmono⟩ :=
        healerEnough_healers_grow hpg hs (i + 1) _ (used ++ [h0]) (i / hpg) _ hset
      have hh0 : h0 = h := by rw [List.get?_cons_zero] at hp; exact Option.some.inj hp
      subst hh0
      exact ⟨g', hg', hmono h0
        (raid_add_healer_self hok (hrole h0 (List.mem_cons_self _ _)))⟩
    | succ p' =>
      rw [List.get?_cons_succ] at hp
      have hnd' : (hs.map (fun c => c.player_id)).Nodup := by
        rw [List.map_cons] at hnd
        exact (List.nodup_cons.1 hnd).2
      have hhd : h0.player_id ∉ hs.map (fun c => c.player_id) := by
        rw [List.map_cons] at hnd
        exact (List.nodup_cons.1 hnd).1
      have habs' : ∀ x ∈ hs, ∀ g ∈ gs.set (i / hpg) (g0.add_character h0).1,
          x.player_id ∉ g.players_used := by
        intro x hx g hgmem hpin
        rcases List.mem_or_eq_of_mem_set hgmem with hold | hnew
        · exact habs x (List.mem_cons_of_mem _ hx) g hold hpin
        · subst hnew
          rcases raid_add_players g0 h0 hpin with hp0 | hpe
          · exact habs x (List.mem_cons_of_mem _ hx) g0 (List.get?_mem hg0) hp0
          · exact hhd (hpe ▸ List.mem_map_of_mem (fun c => c.player_id) hx)
      have hrole' : ∀ x ∈ hs, x.role_raid = "healer" :=
        fun x hx => hrole x (List.mem_cons_of_mem _ hx)
      have harith : i + 1 + p' = i + (p' + 1) := by omega
      have := healerEnough_places hpg hs (i + 1) _ (used ++ [h0]) hnd'
        habs' hrole' p' h hp (by rw [harith, hsetlen]; exact hplt)
      rw [harith] at this
      exact this

/-- C8 amended. The advanced variant's seeding: tanks are sorted by
descending priority tier (stably) and placed round-robin — tank `p` of
the sorted order goes to group `p % num_groups`. Healers are sorted the
same way but are **not** placed round-robin: with enough healers, healer
`p` goes to group `p / healers_per_group`, i.e. contiguous blocks that
fill one group's healer quota before the next group gets any (see the
counterexample for the refuted round-robin reading). -/
theorem C8_amended_seeding_order
    (gsT gsH : List RaidGroup) (tanks healers : List Character) (hpg : Nat)
    (hnT : 0 < gsT.length) (hhpg : 0 < hpg)
    (htd : (tanks.map (fun c => c.player_id)).Nodup)
    (hta : ∀ t ∈ tanks, ∀ g ∈ gsT, t.player_id ∉ g.players_used)
    (htr : ∀ t ∈ tanks, t.role_raid = "tank")
    (hhd : (healers.map (fun c => c.player_id)).Nodup)
    (hha : ∀ x ∈ healers, ∀ g ∈ gsH, x.player_id ∉ g.players_used)
    (hhr : ∀ x ∈ healers, x.role_raid = "healer")
    (henough : gsH.length * hpg ≤ healers.length) :
    (∀ a b ta tb, a ≤ b → (sortByPriorityDesc tanks).get? a = some ta →
      (sortByPriorityDesc tanks).get? b = some tb → prioOf tb ≤ prioOf ta) ∧
    (∀ p t, (sortByPriorityDesc tanks).get? p = some t →
      ∃ g, (distributeTanks gsT tanks).1.get? (p % gsT.length) = some g ∧
        t ∈ g.tanks) ∧
    (∀ p h, p < gsH.length * hpg →
      (sortByPriorityDesc healers).get? p = some h →
      ∃ g, (distributeHealers gsH healers hpg).1.get? (p / hpg) = some g ∧
        h ∈ g.healers) := by
  refine ⟨fun a b ta tb hab ha hb =>
    sortByPriorityDesc_get?_le tanks a b hab ta tb ha hb, ?_, ?_⟩
  · -- Tanks: round-robin.
    intro p t hp
    have hperm := sortByPriorityDesc_perm tanks
    have hnd : ((sortByPriorityDesc tanks).map (fun c => c.player_id)).Nodup :=
      ((hperm.map (fun c => c.player_id)).nodup_iff).2 htd
    have habs : ∀ x ∈ sortByPriorityDesc tanks, ∀ g ∈ gsT,
        x.player_id ∉ g.players_used :=
      fun x hx => hta x (hperm.mem_iff.1 hx)
    have hrole : ∀ x ∈ sortByPriorityDesc tanks, x.role_raid = "tank" :=
      fun x hx => htr x (hperm.mem_iff.1 hx)
    have := tankLoop_places gsT.length hnT (sortByPriorityDesc tanks) 0 gsT []
      rfl hnd habs hrole p t hp
    rw [Nat.zero_add] at this
    exact this
  · -- Healers: contiguous blocks.
    intro p h hplt hp
    have hperm := sortByPriorityDesc_perm healers
    have hslen : (sortByPriorityDesc healers).length = healers.length :=
      hperm.length_eq
    have hbranch : ¬ ((sortByPriorityDesc healers).length
        < gsH.length * hpg) := by rw [hslen]; omega
    have htake : ((sortByPriorityDesc healers).take (gsH.length * hpg)).get? p
        = some h := by
      rw [List.get?_eq_getElem?, List.getElem?_take_of_lt hplt,
        ← List.get?_eq_getElem?]
      exact hp
    have hsub : ((sortByPriorityDesc healers).take
        (gsH.length * hpg)).Sublist (sortByPriorityDesc healers) :=
      List.take_sublist _ _
    have hnd : (((sortByPriorityDesc healers).take
        (gsH.length * hpg)).map (fun c => c.player_id)).Nodup :=
      (hsub.map (fun c => c.player_id)).nodup
        (((hperm.map (fun c => c.player_id)).nodup_iff).2 hhd)
    have habs : ∀ x ∈ (sortByPriorityDesc healers).take (gsH.length * hpg),
        ∀ g ∈ gsH, x.player_id ∉ g.players_used :=
      fun x hx => hha x (hperm.mem_iff.1 (hsub.mem hx))
    have hrole : ∀ x ∈ (sortByPriorityDesc healers).take (gsH.length * hpg),
        x.role_raid = "healer" :=
      fun x hx => hhr x (hperm.mem_iff.1 (hsub.mem hx))
    have hdiv : (0 + p) / hpg < gsH.length := by
      rw [Nat.zero_add]
      exact (Nat.div_lt_iff_lt_mul hhpg).2 hplt
    have hres := healerEnough_places hpg
      ((sortByPriorityDesc healers).take (gsH.length * hpg)) 0 gsH []
      hnd habs hrole p h htake hdiv
    rw [Nat.zero_add] at hres
    simp only [distributeHealers]
    rw [if_neg hbranch]
    exact hres

/-- C8 amended, witness: two tanks and four healers into two groups with
`healers_per_group = 2`: the second tank goes to group 2 (round-robin),
while the second healer goes to group 1 (block fill). -/
theorem C8_amended_seeding_order_witness :
    (∃ g, (distributeTanks [cxHG1, cxHG2] [chD1, chD2]).1.get? 1 = some g ∧
      chD2 ∈ g.tanks) ∧
    (∃ g, (distributeHealers [cxHG1, cxHG2] [chH1, chH2, chH3, chH4] 2).1.get? 0
      = some g ∧ chH2 ∈ g.healers) := by
  have h := C8_amended_seeding_order [cxHG1, cxHG2] [cxHG1, cxHG2]
    [chD1, chD2] [chH1, chH2, chH3, chH4] 2
    (by decide) (by decide) (by decide) (by decide) (by decide) (by decide)
    (by decide) (by decide) (by decide)
  refine ⟨?_, ?_⟩
  · have := h.2.1 1 chD2 (by decide)
    simpa using this
  · have := h.2.2 1 chH2 (by decide) (by decide)
    simpa using this

/-- Looking up in the empty distribution yields 0. -/
theorem dget_nil (k : String) : dget [] k = 0 := rfl

/-- Looking up the head key of a distribution. -/
theorem dget_cons_self (k : String) (v : Nat) (d : Dist) :
    dget ((k, v) :: d) k = v := by
  simp [dget, List.find?]

/-- Looking up a different key skips the head entry. -/
theorem dget_cons_ne {k' k : String} (v : Nat) (d : Dist) (h : k' ≠ k) :
    dget ((k', v) :: d) k = dget d k := by
  simp only [dget, List.find?]
  rw [show ((k', v).1 == k) = false from beq_eq_false_iff_ne.2 h]

/-- Summing a function of the looked-up counts over a key cover: each
present entry contributes its value, each absent key contributes
`f 0`. -/
theorem claimedSum_eq (f : Nat → ℚ) :
    ∀ (d : Dist) (keys : List String), (d.map Prod.fst).Nodup → keys.Nodup →
      (∀ k ∈ d.map Prod.fst, k ∈ keys) →
      (keys.map (fun k => f (dget d k))).sum
        = (d.map (fun kv => f kv.2)).sum
          + ((keys.length : ℚ) - (d.length : ℚ)) * f 0
  | [], keys, _, _, _ => by
    have : keys.map (fun k => f (dget [] k)) = List.replicate keys.length (f 0) := by
      rw [List.eq_replicate_iff]
      refine ⟨by simp, ?_⟩
      intro b hb
      rcases List.mem_map.1 hb with ⟨k, _, rfl⟩
      rfl
    rw [this, List.sum_replicate, nsmul_eq_mul]
    simp
  | (k0, v0) :: d', keys, hnd, hknd, hcov => by
    have hk0 : k0 ∈ keys := hcov k0 (by simp)
    obtain ⟨pre, post, rfl⟩ := List.append_of_mem hk0
    have hknd' := hknd
    rw [List.nodup_append] at hknd'
    have hk0pre : k0 ∉ pre := fun h => hknd'.2.2 h (List.mem_cons_self _ _)
    have hk0post : k0 ∉ post := (List.nodup_cons.1 hknd'.2.1).1
    have hnd' : (d'.map Prod.fst).Nodup := by
      rw [List.map_cons] at hnd
      exact (List.nodup_cons.1 hnd).2
    have hk0d' : k0 ∉ d'.map Prod.fst := by
      rw [List.map_cons] at hnd
      exact (List.nodup_cons.1 hnd).1
    have hcov' : ∀ k ∈ d'.map Prod.fst, k ∈ pre ++ post := by
      intro k hk
      have hne : k ≠ k0 := fun h => hk0d' (h ▸ hk)
      have := hcov k (by rw [List.map_cons]; exact List.mem_cons_of_mem _ hk)
      rcases List.mem_append.1 this with h1 | h2
      · exact List.mem_append.2 (Or.inl h1)
      · rcases List.mem_cons.1 h2 with h3 | h4
        · exact absurd h3 hne
        · exact List.mem_append.2 (Or.inr h4)
    have hkeys' : (pre ++ post).Nodup := by
      rw [List.nodup_append]
      exact ⟨hknd'.1, (List.nodup_cons.1 hknd'.2.1).2,
        fun a ha ha' => hknd'.2.2 ha (List.mem_cons_of_mem _ ha')⟩
    have hin : ∀ k ∈ pre ++ post, dget ((k0, v0) :: d') k = dget d' k := by
      intro k hk
      have hne : k0 ≠ k := by
        intro h
        subst h
        rcases List.mem_append.1 hk with h1 | h2
        · exact hk0pre h1
        · exact hk0post h2
      exact dget_cons_ne v0 d' hne
    have hsplit : ((pre ++ k0 :: post).map
        (fun k => f (dget ((k0, v0) :: d') k))).sum
        = ((pre ++ post).map (fun k => f (dget ((k0, v0) :: d') k))).sum
          + f v0 := by
      rw [List.map_append, List.map_append, List.map_cons, List.sum_append,
        List.sum_append, List.sum_cons, dget_cons_self]
      ring
    rw [hsplit, List.map_congr_left (fun k hk => by rw [hin k hk])]
    rw [claimedSum_eq f d' (pre ++ post) hnd' hkeys' hcov']
    simp only [List.map_cons, List.sum_cons, List.length_append,
      List.length_cons]
    push_cast
    ring

/-- Denominators produced by `varianceFrac` are positive. -/
theorem varianceFrac_den_pos (d : Dist) : 0 < (varianceFrac d).2 := by
  unfold varianceFrac
  by_cases h : (d.map (·.2)).sum = 0
  · simp [h]
  · simp only [h, if_false]
    omega

/-- The unreduced-fraction score is exactly the source's
`variance = sum((count - total/4)**2) / total`. -/
theorem varianceFrac_val (d : Dist) :
    fracVal (varianceFrac d) = calculateVariance d := by
  unfold varianceFrac calculateVariance fracVal
  by_cases h : (d.map (·.2)).sum = 0
  · simp [h]
  · simp only [h, if_false]
    set T : Nat := (d.map (·.2)).sum with hT
    have haux : ∀ l : Dist,
        (((l.map (fun kv => (4 * (kv.2 : Int) - (T : Int)) ^ 2)).sum : Int) : ℚ)
          = 16 * (l.map (fun kv => ((kv.2 : ℚ) - (T : ℚ) / 4) ^ 2)).sum := by
      intro l
      induction l with
      | nil => simp
      | cons kv l ih =>
        simp only [List.map_cons, List.sum_cons]
        push_cast
        push_cast at ih
        rw [ih]
        ring
    rw [haux]
    have hTQ : (T : ℚ) ≠ 0 := by exact_mod_cast h
    push_cast
    field_simp
    ring

/-- `fadd` adds the fraction values (positive denominators). -/
theorem fracVal_fadd (a b : Frac) (ha : 0 < a.2) (hb : 0 < b.2) :
    fracVal (fadd a b) = fracVal a + fracVal b := by
  unfold fracVal fadd
  have ha' : ((a.2 : ℚ)) ≠ 0 := by
    simp only [ne_eq, Int.cast_eq_zero]; omega
  have hb' : ((b.2 : ℚ)) ≠ 0 := by
    simp only [ne_eq, Int.cast_eq_zero]; omega
  rw [div_add_div _ _ ha' hb']
  push_cast
  ring_nf

/-- The denominator of `fadd` stays positive. -/
theorem fadd_den_pos {a b : Frac} (ha : 0 < a.2) (hb : 0 < b.2) :
    0 < (fadd a b).2 := mul_pos ha hb

/-- `fltb` decides the strict order of the fraction values (positive
denominators). -/
theorem fltb_iff (a b : Frac) (ha : 0 < a.2) (hb : 0 < b.2) :
    fltb a b = true ↔ fracVal a < fracVal b := by
  unfold fltb fracVal
  rw [decide_eq_true_iff]
  rw [div_lt_div_iff (by exact_mod_cast ha) (by exact_mod_cast hb)]
  constructor
  · intro h
    exact_mod_cast h
  · intro h
    exact_mod_cast h

/-- C9 amended. The optimizer's per-distribution score is *not* the
plain 4-category sum of squared deviations: (first conjunct) for a
distribution whose keys are distinct and lie in a duplicate-free cover
`keys`, the code's score equals the claimed sum **minus** `(total/4)²`
for every absent category, all **divided by** `total`; (second conjunct)
a candidate pair improves exactly when both characters are `main`-tier
and the total of these scores over both groups and both dimensions is
strictly smaller after the simulated swap than before — the strict
comparison of the claim is right, the formula is not. -/
theorem C9_amended_score :
    (∀ (keys : List String) (d : Dist), (d.map Prod.fst).Nodup →
      keys.Nodup → (∀ k ∈ d.map Prod.fst, k ∈ keys) →
      (d.map (fun kv => kv.2)).sum ≠ 0 →
      calculateVariance d
        = (specClaimedScore keys d
            - ((keys.length : ℚ) - (d.length : ℚ))
              * (((((d.map (fun kv => kv.2)).sum : Nat) : ℚ)) / 4) ^ 2)
          / ((((d.map (fun kv => kv.2)).sum : Nat) : ℚ))) ∧
    (∀ (g1 g2 : RaidGroup) (c1 c2 : Character),
      wouldImproveDistributionMainsOnly g1 g2 c1 c2 = true ↔
        (c1.role_group = "main" ∧ c2.role_group = "main" ∧
          calculateVariance (simSwapDist (g1.get_armor_distribution true)
              c1.armor_type c2.armor_type)
            + calculateVariance (simSwapDist (g2.get_armor_distribution true)
              c2.armor_type c1.armor_type)
            + calculateVariance (simSwapDist (g1.get_tier_distribution true)
              c1.tier_token c2.tier_token)
            + calculateVariance (simSwapDist (g2.get_tier_distribution true)
              c2.tier_token c1.tier_token)
          < calculateVariance (g1.get_armor_distribution true)
            + calculateVariance (g2.get_armor_distribution true)
            + calculateVariance (g1.get_tier_distribution true)
            + calculateVariance (g2.get_tier_distribution true))) := by
  constructor
  · intro keys d hnd hknd hcov hT
    unfold calculateVariance specClaimedScore
    simp only [hT, if_false]
    rw [claimedSum_eq
      (fun x => ((x : ℚ) - ((((d.map (fun kv => kv.2)).sum : Nat) : ℚ)) / 4) ^ 2)
      d keys hnd hknd hcov]
    congr 1
    push_cast
    ring
  · intro g1 g2 c1 c2
    have p1 := varianceFrac_den_pos (g1.get_armor_distribution true)
    have p2 := varianceFrac_den_pos (g2.get_armor_distribution true)
    have p3 := varianceFrac_den_pos (g1.get_tier_distribution true)
    have p4 := varianceFrac_den_pos (g2.get_tier_distribution true)
    have q1 := varianceFrac_den_pos (simSwapDist (g1.get_armor_distribution true)
      c1.armor_type c2.armor_type)
    have q2 := varianceFrac_den_pos (simSwapDist (g2.get_armor_distribution true)
      c2.armor_type c1.armor_type)
    have q3 := varianceFrac_den_pos (simSwapDist (g1.get_tier_distribution true)
      c1.tier_token c2.tier_token)
    have q4 := varianceFrac_den_pos (simSwapDist (g2.get_tier_distribution true)
      c2.tier_token c1.tier_token)
    simp only [wouldImproveDistributionMainsOnly]
    by_cases h1 : c1.role_group = "main"
    · by_cases h2 : c2.role_group = "main"
      · rw [if_neg (by simp [h1, h2])]
        rw [fltb_iff _ _
          (fadd_den_pos (fadd_den_pos (fadd_den_pos q1 q2) q3) q4)
          (fadd_den_pos (fadd_den_pos (fadd_den_pos p1 p2) p3) p4)]
        rw [fracVal_fadd _ _ (fadd_den_pos (fadd_den_pos q1 q2) q3) q4,
          fracVal_fadd _ _ (fadd_den_pos q1 q2) q3,
          fracVal_fadd _ _ q1 q2,
          fracVal_fadd _ _ (fadd_den_pos (fadd_den_pos p1 p2) p3) p4,
          fracVal_fadd _ _ (fadd_den_pos p1 p2) p3,
          fracVal_fadd _ _ p1 p2]
        simp only [varianceFrac_val]
        simp [h1, h2]
      · rw [if_pos (by simp [h2])]
        simp [h2]
    · rw [if_pos (by simp [h1])]
      simp [h1]

/-- C9 amended, witness: on the mains-only distribution `{cloth: 2}`
over the 4 armor categories, the code's score `9/8` equals
`(3 − 3·(1/2)²)/2` — the claimed 4-category sum corrected by the three
absent categories and the normalization. -/
theorem C9_amended_score_witness :
    calculateVariance [("cloth", 2)]
      = (specClaimedScore armorTypes [("cloth", 2)]
          - ((armorTypes.length : ℚ)
              - ((([("cloth", 2)] : Dist)).length : ℚ))
            * ((((((([("cloth", 2)] : Dist)).map (fun kv => kv.2)).sum : Nat) : ℚ)) / 4) ^ 2)
        / (((((([("cloth", 2)] : Dist)).map (fun kv => kv.2)).sum : Nat) : ℚ)) :=
  C9_amended_score.1 armorTypes [("cloth", 2)] (by decide) (by decide)
    (by decide) (by decide)

/-- C1. The conservation claim (`each input character is a member of at
most one output group`, and the swap-failure revert restores the
pre-swap membership) is the code's own stated intent — the revert branch
of `_try_armor_and_tier_swap_mains_only` is commented
`# Revert if swap failed` — but the revert is wrong: after removing both
characters and successfully adding `char2` to group 1, a failure to add
`char1` to group 2 is "reverted" by re-adding both originals *without
removing `char2` from group 1 again*. On this concrete input (five
distinct characters; `chX` gives group 2 a player conflict against
`chA1`), character `chB1`, initially only in group 2, ends up a member
of **both** groups, and the total membership count is 6 for 5 input
characters. -/
theorem C1_failed_swap_breaks_conservation :
    chB1 ∉ cxG1.characters ∧
    chB1 ∈ (tryArmorAndTierSwapMainsOnly cxG1 cxG2).1.characters ∧
    chB1 ∈ (tryArmorAndTierSwapMainsOnly cxG1 cxG2).2.1.characters ∧
    (tryArmorAndTierSwapMainsOnly cxG1 cxG2).1.characters.length +
      (tryArmorAndTierSwapMainsOnly cxG1 cxG2).2.1.characters.length = 6 := by
  decide

/-- C2 counterexample. The claim says *no phase* ever adds a character
to a group already at capacity, in either variant. In the advanced
variant, `RaidGroup.can_add_character` checks only the player conflict:
running `create_optimal_groups` with `num_groups = 1, group_size = 1` on
two tanks of distinct players puts **both** into the single group —
2 members with a capacity of 1, added by the tank-seeding phase. -/
theorem C2_counterexample :
    (createOptimalGroups [chTankMain, chTankHelper] 1 1 5).toOption.map
      (fun gs => gs.map (fun g => g.characters.length)) = some [2] := by
  decide

/-- C3 counterexample. If the list of omitted characters were
retrievable from the returned value, two runs returning equal values
would have equal omitted lists. Rosters `[chSA]` and `[chSA, chSB]`
(one group of capacity 1) serialize to *identical* `groups_to_dict`
output, yet the second run leaves `chSB` unassigned while the first run
leaves nobody unassigned — so the caller cannot determine the omitted
characters from the returned data. -/
theorem C3_counterexample :
    simpleGroupsToDict (createGroups [chSA] 1 1 [] idOracle)
      = simpleGroupsToDict (createGroups [chSA, chSB] 1 1 [] idOracle) ∧
    unassignedSimple [chSA] (createGroups [chSA] 1 1 [] idOracle) = [] ∧
    unassignedSimple [chSA, chSB] (createGroups [chSA, chSB] 1 1 [] idOracle)
      = [chSB] := by
  decide

/-- C3 amended. The serialized result carries only data derived from
assigned members: every member entry in the `groups_to_dict` output of
either variant is the serialization of some member of some group.
Unassigned characters are reported only to the log, so they are not
recoverable from the returned value (see the counterexample). -/
theorem C3_amended_serialization_only_members :
    (∀ gs : List SimpleGroup,
      ((simpleGroupsToDict gs).all (fun d => d.characters.all (fun s =>
        gs.any (fun g => g.characters.any (fun c =>
          serializeSimpleChar c == s))))) = true) ∧
    (∀ gs : List RaidGroup,
      ((raidGroupsToDict gs).all (fun d => d.characters.all (fun s =>
        gs.any (fun g => g.characters.any (fun c =>
          serializeRaidChar c == s))))) = true) := by
  constructor
  · intro gs
    rw [List.all_eq_true]
    intro d hd
    simp only [simpleGroupsToDict, List.mem_map] at hd
    obtain ⟨g, hg, rfl⟩ := hd
    rw [List.all_eq_true]
    intro s hs
    simp only [List.mem_map] at hs
    obtain ⟨c, hc, rfl⟩ := hs
    rw [List.any_eq_true]
    refine ⟨g, hg, ?_⟩
    rw [List.any_eq_true]
    exact ⟨c, hc, by simp⟩
  · intro gs
    rw [List.all_eq_true]
    intro d hd
    simp only [raidGroupsToDict, List.mem_map] at hd
    obtain ⟨g, hg, rfl⟩ := hd
    rw [List.all_eq_true]
    intro s hs
    simp only [List.mem_map] at hs
    obtain ⟨c, hc, rfl⟩ := hs
    rw [List.any_eq_true]
    refine ⟨g, hg, ?_⟩
    rw [List.any_eq_true]
    exact ⟨c, hc, by simp⟩

/-- C4 counterexample. The claim requires `canAdd` of *both* variants to
return false when the group is at capacity. `cxGFull` holds one
character, so with `groupSize = 1` it is at capacity, yet
`RaidGroup.can_add_character` (which checks only the player conflict)
returns true for a second, distinct-player character. -/
theorem C4_counterexample :
    specCanAddRejects 1 cxGFull chD2 ∧ cxGFull.can_add_character chD2 = true := by
  exact ⟨Or.inl (by decide), by decide⟩

/-- C4 amended. The claimed three-condition contract holds exactly for
the simple variant's `SimpleGroup.can_add_character`; the advanced
variant's `RaidGroup.can_add_character` rejects exactly on the player
conflict (its characters carry no lock fields and the group no
capacity). -/
theorem C4_amended_canAdd_exact :
    (∀ (g : SimpleGroup) (c : SimpleCharacter),
      g.can_add_character c = false ↔
        g.max_size ≤ g.characters.length ∨ c.player_id ∈ g.players_used ∨
          (c.is_locked = true ∧ c.locked_to_group ≠ some g.group_id)) ∧
    (∀ (g : RaidGroup) (c : Character),
      g.can_add_character c = false ↔ c.player_id ∈ g.players_used) := by
  constructor
  · intro g c
    unfold SimpleGroup.can_add_character
    split_ifs with h1 h2 h3 <;> simp_all
  · intro g c
    simp [RaidGroup.can_add_character]

/-- C6 counterexample. The claim asserts that whenever capacity suffices
for only one of a main/helper same-role pair, the helper is left
unassigned — in every computation. In the advanced variant the
tank-seeding phase ignores capacity (`RaidGroup.can_add_character`
checks only players): with one group of capacity 1, the helper tank is
assigned right next to the main tank instead of being left out. -/
theorem C6_counterexample :
    (createOptimalGroups [chTankMainB, chTankHelperB] 1 1 5).toOption.map
      (fun gs => gs.map (fun g => g.characters)) =
      some [[chTankMainB, chTankHelperB]] := by
  decide

/-- C7 counterexample. The claim says an empty roster makes *either*
variant abort with an error instead of returning silently empty groups.
The simple variant's `create_groups` has no empty-roster check: on an
empty roster it returns `num_groups` groups, all empty, without any
error. -/
theorem C7_counterexample :
    (createGroups [] 3 30 [] idOracle).map (fun g => g.characters)
      = [[], [], []] := by
  decide

/-- C7 amended. Only the advanced variant aborts on an empty roster
(`raise ValueError("No characters found in database")`); the simple
variant returns `num_groups` empty groups normally, for every
configuration, lock list and randomization. -/
theorem C7_amended_empty_input :
    (∀ n s h : Nat,
      createOptimalGroups [] n s h = .error "No characters found in database") ∧
    (∀ (n s : Nat) (locks : List SimpleLock) (o : RandomOracle),
      (createGroups [] n s locks o).map (fun g => g.characters)
        = List.replicate n []) := by
  constructor
  · intro n s h
    rfl
  · intro n s locks o
    show (initSimpleGroups n s).map (fun g => g.characters) = List.replicate n []
    rw [List.eq_replicate_iff]
    refine ⟨by simp [initSimpleGroups], ?_⟩
    intro b hb
    simp only [initSimpleGroups, List.map_map, List.mem_map] at hb
    obtain ⟨i, _, rfl⟩ := hb
    rfl

/-- C8 counterexample. The claim says healers are seeded round-robin
("consecutive top-priority healers go to different groups rather than
filling one group's healer quota before the next"). With 2 groups,
`healers_per_group = 2` and 4 healers, `distribute_healers` uses
`group_index = i // healers_per_group`: the two first (top-priority)
healers both land in group 1, filling its quota before group 2 gets
any — contiguous blocks, not round-robin. -/
theorem C8_counterexample :
    ((distributeHealers [cxHG1, cxHG2] [chH1, chH2, chH3, chH4] 2).1.map
      (fun g => g.healers)) = [[chH1, chH2], [chH3, chH4]] := by
  decide

/-- C9 counterexample. The claim says the optimizer's per-distribution
score is the plain sum over the 4 fixed categories of squared deviations
from `total/4`. The code's `_calculate_variance` sums only over the
*present* keys and divides by the total: on the mains-only distribution
`{cloth: 2}` the code computes `((2 - 1/2)²)/2 = 9/8`, while the claimed
formula gives `(2 - 1/2)² + 3·(1/2)² = 3`. -/
theorem C9_counterexample :
    calculateVariance [("cloth", 2)] ≠ specClaimedScore armorTypes [("cloth", 2)] := by
  norm_num +decide [calculateVariance, specClaimedScore, dget, armorTypes]

/-- C10. `ensure_buff_coverage` computes a group's missing buffs once
and never refreshes them: here the group's seed member covers all
required buffs except `mystic_touch` and `chaos_brand`; `chPX` (added
for the first missing buff) provides both, yet the loop still assigns
`chPY` for the other buff — two different members of the same group both
providing `chaos_brand`, the second assigned for a buff the first had
already covered. -/
theorem C10_stale_missing_buffs :
    ((ensureBuffCoverage [cxGBuff] [chPX, chPY] 30).1.map (fun g => g.characters))
      = [[chM0, chPX, chPY]] ∧
    (ensureBuffCoverage [cxGBuff] [chPX, chPY] 30).2 = [chPX, chPY] ∧
    "chaos_brand" ∈ chPX.raid_buff_ids ∧ "chaos_brand" ∈ chPY.raid_buff_ids := by
  decide

end HumbleSplit
